import Mathlib

/-!
The `Vector` reductions and `VectorMultiThread::compute_sum` of laba3.

A shallow embedding of `src/laba3/laba3/laba3.cpp`.

Modelling conventions.

* `double` elements are taken from an arbitrary linear ordered field `α`
  (exact numbers; `ℚ` for evaluation, `ℝ` where a square root must exist).
  Rounding, infinities and NaN are outside the model.
* `std::sqrt` is a parameter `sqrt : α → α` of `euclidean_norm`.
* `size_t` values are `Nat`; every product and sum formed by the code is bounded
  by `data.size()`, so no wrap-around occurs where the code is defined.
* A call either returns a value, throws a C++ exception, or has no behaviour
  defined by the language (`Outcome.undefined`): integer division by zero,
  reading through a past-the-end iterator, a floating division by zero.
* The threads of `compute_sum` each write one distinct slot of `partial_sums`
  and are all joined before the slots are read; the model computes the slots one
  after the other.  `std::thread::hardware_concurrency()` is the parameter
  `num_threads`.
* Files are abstracted: an input file is the sequence of its tokens, an output
  file the sequence of values written.

The matrix classes of `src/laba2/laba2/laba2.cpp` follow the same conventions:
`operator[]` of `std::vector` outside the stored elements is undefined behaviour
(`Fault.index_out_of_bounds`), and a `Matrix&` argument is a value of the sum type
`Matrix`, on which `dynamic_cast` succeeds for the matching constructor only.

The cluster records of `src/laba1/ConsoleApplication1/ConsoleApplication1.cpp` are
written to and read from a text, a list of characters. An input stream is the
characters not yet read together with its fail bit; once the fail bit is set every
extraction leaves its target unchanged. The text of a `double` and its parser are
parameters, and so are the values held by uninitialized scalar members.
-/

namespace Laba3

/-- The exception classes thrown by the code. -/
inductive Exception where
  | runtime_error
  | invalid_argument
  | out_of_range
  deriving DecidableEq, Repr

/-- Ways in which a call can leave the behaviour defined by the language. -/
inductive Fault where
  | int_division_by_zero
  | float_division_by_zero
  | past_the_end
  | index_out_of_bounds
  deriving DecidableEq, Repr

/-- Result of a call: a returned value, a thrown exception, or undefined behaviour. -/
inductive Outcome (β : Type) where
  | value (x : β)
  | throws (e : Exception)
  | undefined (f : Fault)
  deriving DecidableEq, Repr

namespace Outcome

/-- Sequencing: the continuation runs only after a normal return. -/
def bind {β γ : Type} : Outcome β → (β → Outcome γ) → Outcome γ
  | value x, k => k x
  | throws e, _ => throws e
  | undefined f, _ => undefined f

/-- The call returned normally. -/
def returns {β : Type} : Outcome β → Bool
  | value _ => true
  | _ => false

/-- The call ended by throwing some exception. -/
def fails {β : Type} : Outcome β → Bool
  | throws _ => true
  | _ => false

/-- Runs a list of computations in order, stopping at the first that does not return. -/
def collect {β : Type} : List (Outcome β) → Outcome (List β)
  | [] => value []
  | o :: os => o.bind fun x => (collect os).bind fun xs => value (x :: xs)

end Outcome

open Outcome

/-- The class `Vector`: `std::vector<double> data; bool initialized = false;`. -/
structure Vector (α : Type) where
  data : List α := []
  initialized : Bool := false

section Defs

variable {α : Type} [LinearOrderedField α]

/-- Models `std::accumulate(first, last, init)` with `operator+`: a left fold. -/
def accumulate (range : List α) (init : α) : α :=
  range.foldl (fun acc x => acc + x) init

/-- Models `std::accumulate` with the lambda of `euclidean_norm`: `sum + val * val`. -/
def accumulate_squares (range : List α) (init : α) : α :=
  range.foldl (fun sum val => sum + val * val) init

/-- Models `std::inner_product(first1, last1, first2, init)`: `acc + *first1 * *first2`, stepwise. -/
def inner_product : List α → List α → α → Outcome α
  | [], _, acc => value acc
  | _ :: _, [], _ => undefined Fault.past_the_end
  | x :: xs, y :: ys, acc => inner_product xs ys (acc + x * y)

/-- Loop of `std::min_element`: `first` is the index of the element looked at,
`smallest` the index kept so far and `s` the element it points to. -/
def min_element_loop : List α → Nat → Nat → α → Nat
  | [], _, smallest, _ => smallest
  | x :: rest, first, smallest, s =>
    if x < s then min_element_loop rest (first + 1) first x
    else min_element_loop rest (first + 1) smallest s

/-- Models `std::min_element(data.begin(), data.end())` as an index; `data.size()` is `end()`. -/
def min_element : List α → Nat
  | [] => 0
  | x :: rest => min_element_loop rest 1 0 x

/-- Loop of `std::max_element`: replaces when `*largest < *first`. -/
def max_element_loop : List α → Nat → Nat → α → Nat
  | [], _, largest, _ => largest
  | x :: rest, first, largest, l =>
    if l < x then max_element_loop rest (first + 1) first x
    else max_element_loop rest (first + 1) largest l

/-- Models `std::max_element(data.begin(), data.end())` as an index; `data.size()` is `end()`. -/
def max_element : List α → Nat
  | [] => 0
  | x :: rest => max_element_loop rest 1 0 x

/-- Dereference of the iterator `data.begin() + i`. -/
def deref (data : List α) (i : Nat) : Outcome α :=
  match data.get? i with
  | some x => value x
  | none => undefined Fault.past_the_end

namespace Vector

/-- Models `Vector() = default`. -/
def new : Vector α := {}

/-- Models `initialize(value, size)`: `data.assign(size, value); initialized = true`. -/
def initialize_value (_v : Vector α) (val : α) (size : Nat) : Vector α :=
  { data := List.replicate size val, initialized := true }

/-- Models `initialize_random(size, min, max)`; `draw i` is the `i`-th value returned by
`dis(gen)`, so the bounds `min`, `max` and the generator are folded into `draw`. -/
def initialize_random (_v : Vector α) (size : Nat) (draw : Nat → α) : Vector α :=
  { data := (List.range size).map draw, initialized := true }

/-- Models `check_initialized()`. -/
def check_initialized (v : Vector α) : Outcome Unit :=
  if !v.initialized then throws Exception.runtime_error else value ()

/-- Models `min()`. -/
def min (v : Vector α) : Outcome α :=
  v.check_initialized.bind fun _ => deref v.data (min_element v.data)

/-- Models `min_index()`. -/
def min_index (v : Vector α) : Outcome Nat :=
  v.check_initialized.bind fun _ => value (min_element v.data)

/-- Models `max()`. -/
def max (v : Vector α) : Outcome α :=
  v.check_initialized.bind fun _ => deref v.data (max_element v.data)

/-- Models `max_index()`. -/
def max_index (v : Vector α) : Outcome Nat :=
  v.check_initialized.bind fun _ => value (max_element v.data)

/-- Models `sum()`. -/
def sum (v : Vector α) : Outcome α :=
  v.check_initialized.bind fun _ => value (accumulate v.data 0)

/-- Models `mean()`: `sum() / data.size()`. -/
def mean (v : Vector α) : Outcome α :=
  v.check_initialized.bind fun _ =>
    v.sum.bind fun s =>
      if v.data.length = 0 then undefined Fault.float_division_by_zero
      else value (s / (v.data.length : α))

/-- Models `euclidean_norm()`. -/
def euclidean_norm (sqrt : α → α) (v : Vector α) : Outcome α :=
  v.check_initialized.bind fun _ => value (sqrt (accumulate_squares v.data 0))

/-- Models `dot(other)`. -/
def dot (v other : Vector α) : Outcome α :=
  v.check_initialized.bind fun _ =>
    if v.data.length ≠ other.data.length then throws Exception.invalid_argument
    else inner_product v.data other.data 0

/-- Models `export_to_file(filename)`: the values written, one per line. -/
def export_to_file (v : Vector α) : Outcome (List α) :=
  v.check_initialized.bind fun _ => value v.data

/-- Loop `while (file >> value) data.push_back(value)`: a token is `some x` when
it reads as the number `x`; the loop ends at the first other token or at the end. -/
def read_values : List (Option α) → List α
  | [] => []
  | none :: _ => []
  | some x :: rest => x :: read_values rest

/-- Models `import_from_file(filename)`; `none` is a file that cannot be opened. -/
def import_from_file (_v : Vector α) (file : Option (List (Option α))) : Vector α :=
  { data := read_values (file.getD []), initialized := true }

/-- Bounds `(start, end)` computed by the lambda `sum_chunk` of `compute_sum`. -/
def chunk_bounds (size num_threads chunk_size thread_id : Nat) : Nat × Nat :=
  let start := thread_id * chunk_size
  let end_ := if thread_id = num_threads - 1 then size else start + chunk_size
  (start, end_)

/-- Body of `sum_chunk`: the value stored in `partial_sums[thread_id]`. The
iterators `data.begin() + start` and `data.begin() + end` must form a range of `data`. -/
def sum_chunk (data : List α) (num_threads chunk_size thread_id : Nat) : Outcome α :=
  let b := chunk_bounds data.length num_threads chunk_size thread_id
  if b.1 ≤ b.2 ∧ b.2 ≤ data.length then
    value (accumulate ((data.drop b.1).take (b.2 - b.1)) 0)
  else undefined Fault.past_the_end

/-- The chunks for which `compute_sum` starts a thread, in thread-id order. -/
def chunks (size num_threads : Nat) : List (Nat × Nat) :=
  (List.range num_threads).map (chunk_bounds size num_threads (size / num_threads))

/-- Models `VectorMultiThread::compute_sum()`. -/
def compute_sum (num_threads : Nat) (v : Vector α) : Outcome α :=
  v.check_initialized.bind fun _ =>
    if num_threads = 0 then undefined Fault.int_division_by_zero
    else
      let chunk_size := v.data.length / num_threads
      (collect ((List.range num_threads).map (sum_chunk v.data num_threads chunk_size))).bind
        fun partial_sums => value (accumulate partial_sums 0)

end Vector

/-- Sum of the elements in the index range `[b.1, b.2)` of `data`. -/
def range_sum (data : List α) (b : Nat × Nat) : α :=
  ((data.drop b.1).take (b.2 - b.1)).sum

/-- Values taken by the loop variable of
`for (size_t num_threads = 1; num_threads <= 16; num_threads *= 2)`; the first argument
bounds the number of iterations. -/
def sweep_loop : Nat → Nat → List Nat
  | 0, _ => []
  | fuel + 1, num_threads =>
    if num_threads ≤ 16 then num_threads :: sweep_loop fuel (num_threads * 2) else []

/-- One iteration of the loop of `performance_test`: the number printed after
`Threads: `, the chunks formed by the `vec.compute_sum()` call that is timed, and what
that call returns. The elapsed time itself is not modelled. -/
structure Sample (α : Type) where
  label : Nat
  chunks : List (Nat × Nat)
  result : Outcome α

/-- Models `performance_test(size)`; `hardware_concurrency` is the value
`std::thread::hardware_concurrency()` has inside `compute_sum`. -/
def performance_test (hardware_concurrency size : Nat) (draw : Nat → α) : List (Sample α) :=
  let vec : Vector α := Vector.initialize_random Vector.new size draw
  (sweep_loop 17 1).map fun num_threads =>
    { label := num_threads
      chunks := Vector.chunks vec.data.length hardware_concurrency
      result := Vector.compute_sum hardware_concurrency vec }

/-! ### laba2: `DenseMatrix` and `DiagonalMatrix` -/

/-- Models `for (size_t i = 0; i < n; ++i) body`, threading the state changed by the body. -/
def for_loop {σ : Type} (n : Nat) (body : Nat → σ → Outcome σ) (init : σ) : Outcome σ :=
  (List.range n).foldl (fun acc i => acc.bind (body i)) (value init)

/-- Models `std::vector::resize(n, val)`: the first `n` elements are kept and copies of
`val` are appended while fewer than `n` are stored. -/
def resize {β : Type} (l : List β) (n : Nat) (val : β) : List β :=
  l.take n ++ List.replicate (n - l.length) val

/-- Read of `data[i]` on a `vector<double>`. -/
def index1 (data : List α) (i : Nat) : Outcome α :=
  match data[i]? with
  | some x => value x
  | none => undefined Fault.index_out_of_bounds

/-- Assignment `data[i] = x` on a `vector<double>`. -/
def assign1 (data : List α) (i : Nat) (x : α) : Outcome (List α) :=
  if i < data.length then value (data.set i x) else undefined Fault.index_out_of_bounds

/-- Read of `data[i][j]` on a `vector<vector<double>>`. -/
def index2 (data : List (List α)) (i j : Nat) : Outcome α :=
  match data[i]? with
  | some row => index1 row j
  | none => undefined Fault.index_out_of_bounds

/-- Assignment `data[i][j] = x` on a `vector<vector<double>>`. -/
def assign2 (data : List (List α)) (i j : Nat) (x : α) : Outcome (List (List α)) :=
  match data[i]? with
  | some row => (assign1 row j x).bind fun row' => value (data.set i row')
  | none => undefined Fault.index_out_of_bounds

/-- The class `DenseMatrix`: `vector<vector<double>> data; size_t rows, cols;`. -/
structure DenseMatrix (α : Type) where
  data : List (List α)
  rows : Nat
  cols : Nat

/-- The class `DiagonalMatrix`: `vector<double> data; size_t size;`. -/
structure DiagonalMatrix (α : Type) where
  data : List α
  size : Nat

/-- An object behind a `const Matrix&`: one of the two concrete classes. -/
inductive Matrix (α : Type) where
  | dense (m : DenseMatrix α)
  | diagonal (d : DiagonalMatrix α)

/-- A matrix file that opens and starts with the two sizes: `rows cols` followed by the
numeric tokens `values`. -/
structure MatrixFile (α : Type) where
  rows : Nat
  cols : Nat
  values : List α

namespace DenseMatrix

/-- Models `DenseMatrix(rows, cols)`: `data.resize(rows, vector<double>(cols, 0))`. -/
def new (rows cols : Nat) : DenseMatrix α :=
  { data := resize [] rows (List.replicate cols 0), rows := rows, cols := cols }

/-- Models `set(i, j, value)`. -/
def set (m : DenseMatrix α) (i j : Nat) (val : α) : Outcome (DenseMatrix α) :=
  if i ≥ m.rows ∨ j ≥ m.cols then throws Exception.out_of_range
  else (assign2 m.data i j val).bind fun data => value { m with data := data }

/-- Models `get(i, j)`. -/
def get (m : DenseMatrix α) (i j : Nat) : Outcome α :=
  if i ≥ m.rows ∨ j ≥ m.cols then throws Exception.out_of_range
  else index2 m.data i j

/-- Models `file >> data[i][j]`: the state is the stored data and the tokens not yet
read; at the end of the file the extraction fails and the element keeps its value. -/
def read_entry (i j : Nat) (st : List (List α) × List α) :
    Outcome (List (List α) × List α) :=
  (index2 st.1 i j).bind fun _ =>
    match st.2 with
    | [] => value st
    | x :: rest => (assign2 st.1 i j x).bind fun data => value (data, rest)

/-- Models `import(filename)`; `none` is a file that cannot be opened. -/
def import_matrix (m : DenseMatrix α) (file : Option (MatrixFile α)) :
    Outcome (DenseMatrix α) :=
  match file with
  | none => throws Exception.runtime_error
  | some f =>
    let data := resize m.data f.rows (List.replicate f.cols 0)
    (for_loop f.rows (fun i st => for_loop f.cols (fun j st => read_entry i j st) st)
      (data, f.values)).bind
      fun st => value { data := st.1, rows := f.rows, cols := f.cols }

/-- Models `add(other)`. -/
def add (m : DenseMatrix α) (other : Matrix α) : Outcome (DenseMatrix α) :=
  match other with
  | Matrix.diagonal _ => throws Exception.invalid_argument
  | Matrix.dense denseOther =>
    if denseOther.rows ≠ m.rows ∨ denseOther.cols ≠ m.cols then
      throws Exception.invalid_argument
    else
      for_loop m.rows (fun i result => for_loop m.cols (fun j result =>
        (index2 m.data i j).bind fun a => (denseOther.get i j).bind fun b =>
          result.set i j (a + b)) result) (new m.rows m.cols)

/-- Models `multiplyMatrix(other)`. -/
def multiplyMatrix (m : DenseMatrix α) (other : Matrix α) : Outcome (DenseMatrix α) :=
  match other with
  | Matrix.diagonal _ => throws Exception.invalid_argument
  | Matrix.dense denseOther =>
    if m.cols ≠ denseOther.rows then throws Exception.invalid_argument
    else
      for_loop m.rows (fun i result => for_loop denseOther.cols (fun j result =>
        (for_loop m.cols (fun k sum =>
          (index2 m.data i k).bind fun a => (denseOther.get k j).bind fun b =>
            value (sum + a * b)) 0).bind fun sum => result.set i j sum) result)
        (new m.rows denseOther.cols)

/-- Models `transpose()`. -/
def transpose (m : DenseMatrix α) : Outcome (DenseMatrix α) :=
  for_loop m.rows (fun i result => for_loop m.cols (fun j result =>
    (index2 m.data i j).bind fun x => result.set j i x) result) (new m.cols m.rows)

/-- The stored data has exactly `rows` rows of exactly `cols` entries each. -/
def shaped (m : DenseMatrix α) : Prop :=
  m.data.length = m.rows ∧ ∀ row ∈ m.data, row.length = m.cols

instance (m : DenseMatrix α) : Decidable m.shaped := by
  unfold shaped; infer_instance

/-- The number stored at row `i`, column `j` (0 outside the stored data). -/
def entry (m : DenseMatrix α) (i j : Nat) : α :=
  (m.data.getD i []).getD j 0

end DenseMatrix

namespace DiagonalMatrix

/-- Models `DiagonalMatrix(size)`: `data.resize(size, 0)`. -/
def new (size : Nat) : DiagonalMatrix α :=
  { data := resize [] size 0, size := size }

/-- Models `set(i, value)`. -/
def set (d : DiagonalMatrix α) (i : Nat) (val : α) : Outcome (DiagonalMatrix α) :=
  if i ≥ d.size then throws Exception.out_of_range
  else (assign1 d.data i val).bind fun data => value { d with data := data }

/-- Models `get(i)`. -/
def get (d : DiagonalMatrix α) (i : Nat) : Outcome α :=
  if i ≥ d.size then throws Exception.out_of_range
  else if i < d.size then index1 d.data i else value 0

/-- Models `print()`: the rows of numbers written, `data[i]` on the diagonal and the
literal 0 elsewhere. -/
def print (d : DiagonalMatrix α) : Outcome (List (List α)) :=
  collect ((List.range d.size).map fun i =>
    collect ((List.range d.size).map fun j => if i = j then index1 d.data i else value 0))

/-- Models `add(other)`. -/
def add (d : DiagonalMatrix α) (other : Matrix α) : Outcome (DiagonalMatrix α) :=
  match other with
  | Matrix.dense _ => throws Exception.invalid_argument
  | Matrix.diagonal diagOther =>
    if diagOther.size ≠ d.size then throws Exception.invalid_argument
    else
      for_loop d.size (fun i result =>
        (index1 d.data i).bind fun a => (diagOther.get i).bind fun b =>
          result.set i (a + b)) (new d.size)

/-- Models `multiplyMatrix(other)`. -/
def multiplyMatrix (d : DiagonalMatrix α) (other : Matrix α) : Outcome (DiagonalMatrix α) :=
  match other with
  | Matrix.dense _ => throws Exception.invalid_argument
  | Matrix.diagonal diagOther =>
    if diagOther.size ≠ d.size then throws Exception.invalid_argument
    else
      for_loop d.size (fun i result =>
        (index1 d.data i).bind fun a => (diagOther.get i).bind fun b =>
          result.set i (a * b)) (new d.size)

/-- Models `transpose()`: `return new DiagonalMatrix(size)`. -/
def transpose (d : DiagonalMatrix α) : DiagonalMatrix α :=
  new d.size

/-- The dense view of a diagonal matrix: the square matrix whose rows are those that
`print` writes. -/
def dense_view (d : DiagonalMatrix α) : Outcome (DenseMatrix α) :=
  d.print.bind fun rows => value { data := rows, rows := d.size, cols := d.size }

end DiagonalMatrix

/-! ### laba1: cluster records and their text files -/

/-- State of an input file stream: the characters not yet read and the fail bit. -/
structure IStream where
  rest : List Char
  fail : Bool

/-- The characters skipped as white space by formatted input. -/
def is_space (c : Char) : Bool :=
  c == ' ' || c == '\n' || c == '\t' || c == '\r' || c == '\x0b' || c == '\x0c'

/-- Skips leading white space. -/
def skip_ws : List Char → List Char
  | [] => []
  | c :: cs => if is_space c then skip_ws cs else c :: cs

/-- Splits off the characters before the first white space. -/
def take_word : List Char → List Char × List Char
  | [] => ([], [])
  | c :: cs => if is_space c then ([], c :: cs) else ((take_word cs).1.cons c, (take_word cs).2)

/-- Splits off the leading decimal digits. -/
def take_digits : List Char → List Char × List Char
  | [] => ([], [])
  | c :: cs => if c.isDigit then ((take_digits cs).1.cons c, (take_digits cs).2) else ([], c :: cs)

/-- The number written by a sequence of decimal digits. -/
def digits_value (ds : List Char) : Nat :=
  ds.foldl (fun acc c => 10 * acc + (c.toNat - '0'.toNat)) 0

/-- Splits off an optional sign; the flag tells whether it was a minus. -/
def take_sign : List Char → Bool × List Char
  | '-' :: cs => (true, cs)
  | '+' :: cs => (false, cs)
  | cs => (false, cs)

/-- Models `file >> str` for a `std::string`: on a failed stream or at the end of the file
the string keeps its value; otherwise it becomes the next word. -/
def read_string (s : IStream) (old : String) : String × IStream :=
  if s.fail then (old, s)
  else match skip_ws s.rest with
    | [] => (old, { rest := [], fail := true })
    | c :: cs => (String.mk (take_word (c :: cs)).1, { rest := (take_word (c :: cs)).2, fail := false })

/-- Models `file >> n` for an `int` (32 bits): without digits the value becomes 0 and the
fail bit is set; a value out of range becomes the nearest bound and the fail bit is set. -/
def read_int (s : IStream) (old : Int) : Int × IStream :=
  if s.fail then (old, s)
  else match skip_ws s.rest with
    | [] => (old, { rest := [], fail := true })
    | c :: cs =>
      let signed := take_sign (c :: cs)
      let split := take_digits signed.2
      if split.1 = [] then (0, { rest := signed.2, fail := true })
      else
        let v : Int := if signed.1 then -(digits_value split.1 : Int) else (digits_value split.1 : Int)
        if v > 2147483647 then (2147483647, { rest := split.2, fail := true })
        else if v < -2147483648 then (-2147483648, { rest := split.2, fail := true })
        else (v, { rest := split.2, fail := false })

/-- Models `file >> n` for a `size_t` (64 bits): a minus sign negates modulo `2 ^ 64`. -/
def read_size_t (s : IStream) (old : Nat) : Nat × IStream :=
  if s.fail then (old, s)
  else match skip_ws s.rest with
    | [] => (old, { rest := [], fail := true })
    | c :: cs =>
      let signed := take_sign (c :: cs)
      let split := take_digits signed.2
      if split.1 = [] then (0, { rest := signed.2, fail := true })
      else if digits_value split.1 ≥ 2 ^ 64 then (2 ^ 64 - 1, { rest := split.2, fail := true })
      else if signed.1 then ((2 ^ 64 - digits_value split.1) % 2 ^ 64, { rest := split.2, fail := false })
      else (digits_value split.1, { rest := split.2, fail := false })

/-- Models `file >> x` for a `double`; `parse` reads a number at the head of the
characters and returns it with the characters left, or `none` when no number starts there. -/
def read_double (parse : List Char → Option (α × List Char)) (s : IStream) (old : α) :
    α × IStream :=
  if s.fail then (old, s)
  else match skip_ws s.rest with
    | [] => (old, { rest := [], fail := true })
    | c :: cs =>
      match parse (c :: cs) with
      | some (x, rest) => (x, { rest := rest, fail := false })
      | none => (0, { rest := c :: cs, fail := true })

/-- Text written by `file << n` for an integer. -/
def show_int (n : Int) : List Char := (toString n).toList

/-- Text written by `file << n` for a `size_t`. -/
def show_size_t (n : Nat) : List Char := (toString n).toList

/-- The class `GpuSpec`. -/
structure GpuSpec where
  model : String
  cores : Int
  memory : Int

/-- The class `CpuSpec`. -/
structure CpuSpec (α : Type) where
  model : String
  cores : Int
  frequency : α

/-- The class `RamSpec`. -/
structure RamSpec where
  capacity : Int
  type : String

/-- The class `LanSpec`. -/
structure LanSpec (α : Type) where
  bandwidth : α
  type : String

/-- The class `ClusterNode`. -/
structure ClusterNode (α : Type) where
  gpu : GpuSpec
  cpu : CpuSpec α
  ram : RamSpec
  lan : LanSpec α

/-- The class `Cluster`. -/
structure Cluster (α : Type) where
  nodes : List (ClusterNode α)

/-- The values that the scalar members of a default-initialized `ClusterNode node;`
happen to hold; its strings are empty. -/
def fresh_node (int_junk : Int) (double_junk : α) : ClusterNode α :=
  { gpu := { model := "", cores := int_junk, memory := int_junk }
    cpu := { model := "", cores := int_junk, frequency := double_junk }
    ram := { capacity := int_junk, type := "" }
    lan := { bandwidth := double_junk, type := "" } }

/-- Models `GpuSpec::Import`: `file >> model >> cores >> memory`. -/
def GpuSpec.Import (g : GpuSpec) (s : IStream) : GpuSpec × IStream :=
  let r1 := read_string s g.model
  let r2 := read_int r1.2 g.cores
  let r3 := read_int r2.2 g.memory
  ({ model := r1.1, cores := r2.1, memory := r3.1 }, r3.2)

/-- Models `GpuSpec::Export`: `file << model << " " << cores << " " << memory << endl`. -/
def GpuSpec.Export (g : GpuSpec) : List Char :=
  g.model.toList ++ [' '] ++ show_int g.cores ++ [' '] ++ show_int g.memory ++ ['\n']

/-- Models `CpuSpec::Import`: `file >> model >> cores >> frequency`. -/
def CpuSpec.Import (parse : List Char → Option (α × List Char)) (c : CpuSpec α)
    (s : IStream) : CpuSpec α × IStream :=
  let r1 := read_string s c.model
  let r2 := read_int r1.2 c.cores
  let r3 := read_double parse r2.2 c.frequency
  ({ model := r1.1, cores := r2.1, frequency := r3.1 }, r3.2)

/-- Models `CpuSpec::Export`; `fmt` is the text `file << x` writes for a `double`. -/
def CpuSpec.Export (fmt : α → List Char) (c : CpuSpec α) : List Char :=
  c.model.toList ++ [' '] ++ show_int c.cores ++ [' '] ++ fmt c.frequency ++ ['\n']

/-- Models `RamSpec::Import`: `file >> capacity >> type`. -/
def RamSpec.Import (r : RamSpec) (s : IStream) : RamSpec × IStream :=
  let r1 := read_int s r.capacity
  let r2 := read_string r1.2 r.type
  ({ capacity := r1.1, type := r2.1 }, r2.2)

/-- Models `RamSpec::Export`: `file << capacity << " " << type << endl`. -/
def RamSpec.Export (r : RamSpec) : List Char :=
  show_int r.capacity ++ [' '] ++ r.type.toList ++ ['\n']

/-- Models `LanSpec::Import`: `file >> bandwidth >> type`. -/
def LanSpec.Import (parse : List Char → Option (α × List Char)) (l : LanSpec α)
    (s : IStream) : LanSpec α × IStream :=
  let r1 := read_double parse s l.bandwidth
  let r2 := read_string r1.2 l.type
  ({ bandwidth := r1.1, type := r2.1 }, r2.2)

/-- Models `LanSpec::Export`: `file << bandwidth << " " << type << endl`. -/
def LanSpec.Export (fmt : α → List Char) (l : LanSpec α) : List Char :=
  fmt l.bandwidth ++ [' '] ++ l.type.toList ++ ['\n']

/-- Models `ClusterNode::Import`. -/
def ClusterNode.Import (parse : List Char → Option (α × List Char)) (n : ClusterNode α)
    (s : IStream) : ClusterNode α × IStream :=
  let g := n.gpu.Import s
  let c := n.cpu.Import parse g.2
  let r := n.ram.Import c.2
  let l := n.lan.Import parse r.2
  ({ gpu := g.1, cpu := c.1, ram := r.1, lan := l.1 }, l.2)

/-- Models `ClusterNode::Export`. -/
def ClusterNode.Export (fmt : α → List Char) (n : ClusterNode α) : List Char :=
  n.gpu.Export ++ n.cpu.Export fmt ++ n.ram.Export ++ n.lan.Export fmt

/-- Loop of `Cluster::Import`: `count` more nodes are read, each into a
default-initialized `ClusterNode`, and appended to `nodes`. -/
def import_nodes (parse : List Char → Option (α × List Char)) (int_junk : Int)
    (double_junk : α) : Nat → IStream → List (ClusterNode α) → List (ClusterNode α)
  | 0, _, nodes => nodes
  | count + 1, s, nodes =>
    import_nodes parse int_junk double_junk count
      ((fresh_node int_junk double_junk).Import parse s).2
      (nodes ++ [((fresh_node int_junk double_junk).Import parse s).1])

/-- Models `Cluster::Import(filename)`; `none` is a file that cannot be opened, and
`count_junk` is the value the uninitialized `nodeCount` happens to hold. -/
def Cluster.Import (parse : List Char → Option (α × List Char)) (count_junk : Nat)
    (int_junk : Int) (double_junk : α) (c : Cluster α) (file : Option (List Char)) :
    Cluster α :=
  match file with
  | none => c
  | some text =>
    let r := read_size_t { rest := text, fail := false } count_junk
    { nodes := import_nodes parse int_junk double_junk r.1 r.2 [] }

/-- Models `Cluster::Export(filename)` on a file that opens: the text written. -/
def Cluster.Export (fmt : α → List Char) (c : Cluster α) : List Char :=
  show_size_t c.nodes.length ++ ['\n'] ++ (c.nodes.map (ClusterNode.Export fmt)).flatten

/-- The cluster built by `main`. -/
def main_cluster : Cluster α :=
  { nodes :=
      [ { gpu := { model := "NVIDIA RTX 3090", cores := 10496, memory := 24576 }
          cpu := { model := "AMD Ryzen 9 5900X", cores := 12, frequency := 3.7 }
          ram := { capacity := 32768, type := "DDR4" }
          lan := { bandwidth := 10.0, type := "Ethernet" } },
        { gpu := { model := "NVIDIA RTX 4060", cores := 3072, memory := 8192 }
          cpu := { model := "Intel Core i5-12400F", cores := 6, frequency := 2.5 }
          ram := { capacity := 16384, type := "DDR4" }
          lan := { bandwidth := 2.5, type := "Ethernet" } } ] }

end Defs

/-! ## Helper lemmas -/

section Lemmas

set_option linter.unusedSectionVars false

variable {α : Type} [LinearOrderedField α]

theorem accumulate_eq (range : List α) (init : α) :
    accumulate range init = init + range.sum := by
  unfold accumulate
  induction range generalizing init with
  | nil => simp
  | cons x xs ih => simp [List.foldl_cons, ih, add_assoc]

theorem accumulate_squares_eq (range : List α) (init : α) :
    accumulate_squares range init = init + (range.map fun x => x * x).sum := by
  unfold accumulate_squares
  induction range generalizing init with
  | nil => simp
  | cons x xs ih => simp [List.foldl_cons, ih, add_assoc]

theorem collect_map_value {β γ : Type} (f : γ → β) (l : List γ) :
    collect (l.map fun i => value (f i)) = value (l.map f) := by
  induction l with
  | nil => rfl
  | cons x xs ih => simp [collect, Outcome.bind, ih]

theorem check_initialized_true (v : Vector α) (h : v.initialized = true) :
    v.check_initialized = value () := by
  simp [Vector.check_initialized, h]

theorem check_initialized_false (v : Vector α) (h : v.initialized = false) :
    v.check_initialized = throws Exception.runtime_error := by
  simp [Vector.check_initialized, h]

theorem chunk_bounds_valid (size num_threads thread_id : Nat)
    (hi : thread_id < num_threads) :
    (Vector.chunk_bounds size num_threads (size / num_threads) thread_id).1 ≤
      (Vector.chunk_bounds size num_threads (size / num_threads) thread_id).2 ∧
    (Vector.chunk_bounds size num_threads (size / num_threads) thread_id).2 ≤ size := by
  have hdiv : num_threads * (size / num_threads) ≤ size := Nat.mul_div_le size num_threads
  generalize size / num_threads = c at hdiv ⊢
  simp only [Vector.chunk_bounds]
  split_ifs with hlast
  · have : thread_id * c ≤ num_threads * c := Nat.mul_le_mul_right _ (by omega)
    exact ⟨by omega, le_refl _⟩
  · have : (thread_id + 1) * c ≤ num_threads * c := Nat.mul_le_mul_right _ (by omega)
    rw [Nat.add_mul, Nat.one_mul] at this
    exact ⟨by omega, by omega⟩

theorem sum_chunk_eq (data : List α) (num_threads thread_id : Nat)
    (hi : thread_id < num_threads) :
    Vector.sum_chunk data num_threads (data.length / num_threads) thread_id =
      value (range_sum data
        (Vector.chunk_bounds data.length num_threads (data.length / num_threads) thread_id)) := by
  have h := chunk_bounds_valid data.length num_threads thread_id hi
  simp only [Vector.sum_chunk, range_sum]
  rw [if_pos h, accumulate_eq, zero_add]

theorem sum_regular_chunks (data : List α) (c k : Nat) :
    ((List.range k).map fun i => ((data.drop (i * c)).take c).sum).sum =
      (data.take (k * c)).sum := by
  induction k with
  | zero => simp
  | succ k ih =>
    rw [List.range_succ, List.map_append, List.sum_append, ih, Nat.succ_mul, List.take_add,
      List.sum_append]
    simp

theorem sum_all_chunks (data : List α) (num_threads : Nat) (hw : 1 ≤ num_threads) :
    ((List.range num_threads).map fun i => range_sum data
      (Vector.chunk_bounds data.length num_threads (data.length / num_threads) i)).sum =
      data.sum := by
  obtain ⟨k, rfl⟩ : ∃ k, num_threads = k + 1 := ⟨num_threads - 1, by omega⟩
  have hdiv : (k + 1) * (data.length / (k + 1)) ≤ data.length := Nat.mul_div_le _ _
  have hk : k * (data.length / (k + 1)) ≤ data.length :=
    le_trans (Nat.mul_le_mul_right _ (Nat.le_succ k)) hdiv
  rw [List.range_succ, List.map_append, List.sum_append]
  have hreg : ((List.range k).map fun i => range_sum data
      (Vector.chunk_bounds data.length (k + 1) (data.length / (k + 1)) i)) =
      (List.range k).map fun i =>
        ((data.drop (i * (data.length / (k + 1)))).take (data.length / (k + 1))).sum := by
    apply List.map_congr_left
    intro i hi
    have hik : i ≠ k := by
      have := List.mem_range.mp hi; omega
    simp [range_sum, Vector.chunk_bounds, hik]
  rw [hreg, sum_regular_chunks]
  have hlast : range_sum data
      (Vector.chunk_bounds data.length (k + 1) (data.length / (k + 1)) k) =
      (data.drop (k * (data.length / (k + 1)))).sum := by
    simp only [range_sum, Vector.chunk_bounds, Nat.add_sub_cancel, if_true]
    rw [List.take_of_length_le]
    simp
  simp only [List.map_cons, List.map_nil, List.sum_cons, List.sum_nil, add_zero]
  rw [hlast, ← List.sum_append, List.take_append_drop]

/-- With at least one thread, `compute_sum` on an initialized vector returns the
sum of all elements. -/
theorem compute_sum_eq (v : Vector α) (num_threads : Nat) (hinit : v.initialized = true)
    (hw : 1 ≤ num_threads) : Vector.compute_sum num_threads v = value v.data.sum := by
  have hne : num_threads ≠ 0 := by omega
  have hmap : (List.range num_threads).map
      (Vector.sum_chunk v.data num_threads (v.data.length / num_threads)) =
      (List.range num_threads).map fun i => value (range_sum v.data
        (Vector.chunk_bounds v.data.length num_threads (v.data.length / num_threads) i)) := by
    apply List.map_congr_left
    intro i hi
    exact sum_chunk_eq v.data num_threads i (List.mem_range.mp hi)
  simp only [Vector.compute_sum, check_initialized_true v hinit, Outcome.bind, if_neg hne]
  rw [hmap, collect_map_value]
  simp only [Outcome.bind, accumulate_eq, zero_add]
  rw [sum_all_chunks v.data num_threads hw]

theorem sum_eq (v : Vector α) (hinit : v.initialized = true) :
    v.sum = value v.data.sum := by
  simp [Vector.sum, check_initialized_true v hinit, Outcome.bind, accumulate_eq]

theorem chunks_getElem_some (size num_threads i : Nat) (c : Nat × Nat) :
    (Vector.chunks size num_threads)[i]? = some c ↔
      i < num_threads ∧ c = Vector.chunk_bounds size num_threads (size / num_threads) i := by
  unfold Vector.chunks
  rw [List.getElem?_map]
  by_cases hi : i < num_threads
  · rw [List.getElem?_range hi]
    simp [hi, eq_comm]
  · rw [List.getElem?_eq_none (by simpa using hi)]
    simp [hi]

theorem mem_chunks (size num_threads : Nat) (c : Nat × Nat) :
    c ∈ Vector.chunks size num_threads ↔
      ∃ i, i < num_threads ∧ c = Vector.chunk_bounds size num_threads (size / num_threads) i := by
  simp [Vector.chunks, eq_comm]

theorem read_values_no_number (toks : List (Option α)) (h : ∀ t ∈ toks, t = none) :
    Vector.read_values toks = [] := by
  cases toks with
  | nil => rfl
  | cons t rest =>
    have ht : t = none := h t (List.mem_cons_self _ _)
    subst ht
    rfl

theorem inner_product_eq (xs ys : List α) (acc : α) (h : xs.length = ys.length) :
    inner_product xs ys acc = value (acc + (List.zipWith (fun x y => x * y) xs ys).sum) := by
  induction xs generalizing ys acc with
  | nil => simp [inner_product]
  | cons x xs ih =>
    cases ys with
    | nil => simp at h
    | cons y ys =>
      have hlen : xs.length = ys.length := by simpa using h
      simp [inner_product, ih ys (acc + x * y) hlen, add_assoc]

theorem zipWith_mul_sum (xs ys : List α) (h : xs.length = ys.length) :
    (List.zipWith (fun x y => x * y) xs ys).sum =
      ∑ i in Finset.range xs.length, xs.getD i 0 * ys.getD i 0 := by
  induction xs generalizing ys with
  | nil => simp
  | cons x xs ih =>
    cases ys with
    | nil => simp at h
    | cons y ys =>
      have hlen : xs.length = ys.length := by simpa using h
      rw [List.length_cons, Finset.sum_range_succ']
      simp [ih ys hlen, add_comm]

theorem min_element_loop_spec (rest pre : List α) (smallest : Nat) (s : α)
    (h1 : pre[smallest]? = some s) (h2 : ∀ y ∈ pre, s ≤ y)
    (h3 : ∀ y ∈ pre.take smallest, s < y) :
    ∃ m, (pre ++ rest)[min_element_loop rest pre.length smallest s]? = some m ∧
      (∀ y ∈ pre ++ rest, m ≤ y) ∧
      (∀ y ∈ (pre ++ rest).take (min_element_loop rest pre.length smallest s), m < y) := by
  induction rest generalizing pre smallest s with
  | nil =>
    refine ⟨s, ?_, ?_, ?_⟩
    · simpa [min_element_loop] using h1
    · simpa using h2
    · simpa [min_element_loop] using h3
  | cons x rest ih =>
    have hlt : smallest < pre.length := by
      obtain ⟨h, _⟩ := List.getElem?_eq_some.mp h1
      exact h
    have happ : pre ++ x :: rest = (pre ++ [x]) ++ rest := by simp
    have hlen : (pre ++ [x]).length = pre.length + 1 := by simp
    simp only [min_element_loop]
    split_ifs with hx
    · have h := ih (pre ++ [x]) pre.length x (by simp)
        (by
          intro y hy
          rcases List.mem_append.mp hy with hy | hy
          · exact le_trans (le_of_lt hx) (h2 y hy)
          · simp at hy; rw [hy])
        (by
          intro y hy
          rw [List.take_left] at hy
          exact lt_of_lt_of_le hx (h2 y hy))
      rw [hlen] at h
      rw [happ]
      exact h
    · have h := ih (pre ++ [x]) smallest s
        (by rw [List.getElem?_append_left hlt]; exact h1)
        (by
          intro y hy
          rcases List.mem_append.mp hy with hy | hy
          · exact h2 y hy
          · simp at hy; rw [hy]; exact not_lt.mp hx)
        (by
          intro y hy
          rw [List.take_append_of_le_length (le_of_lt hlt)] at hy
          exact h3 y hy)
      rw [hlen] at h
      rw [happ]
      exact h

theorem max_element_loop_spec (rest pre : List α) (largest : Nat) (l : α)
    (h1 : pre[largest]? = some l) (h2 : ∀ y ∈ pre, y ≤ l)
    (h3 : ∀ y ∈ pre.take largest, y < l) :
    ∃ m, (pre ++ rest)[max_element_loop rest pre.length largest l]? = some m ∧
      (∀ y ∈ pre ++ rest, y ≤ m) ∧
      (∀ y ∈ (pre ++ rest).take (max_element_loop rest pre.length largest l), y < m) := by
  induction rest generalizing pre largest l with
  | nil =>
    refine ⟨l, ?_, ?_, ?_⟩
    · simpa [max_element_loop] using h1
    · simpa using h2
    · simpa [max_element_loop] using h3
  | cons x rest ih =>
    have hlt : largest < pre.length := by
      obtain ⟨h, _⟩ := List.getElem?_eq_some.mp h1
      exact h
    have happ : pre ++ x :: rest = (pre ++ [x]) ++ rest := by simp
    have hlen : (pre ++ [x]).length = pre.length + 1 := by simp
    simp only [max_element_loop]
    split_ifs with hx
    · have h := ih (pre ++ [x]) pre.length x (by simp)
        (by
          intro y hy
          rcases List.mem_append.mp hy with hy | hy
          · exact le_trans (h2 y hy) (le_of_lt hx)
          · simp at hy; rw [hy])
        (by
          intro y hy
          rw [List.take_left] at hy
          exact lt_of_le_of_lt (h2 y hy) hx)
      rw [hlen] at h
      rw [happ]
      exact h
    · have h := ih (pre ++ [x]) largest l
        (by rw [List.getElem?_append_left hlt]; exact h1)
        (by
          intro y hy
          rcases List.mem_append.mp hy with hy | hy
          · exact h2 y hy
          · simp at hy; rw [hy]; exact not_lt.mp hx)
        (by
          intro y hy
          rw [List.take_append_of_le_length (le_of_lt hlt)] at hy
          exact h3 y hy)
      rw [hlen] at h
      rw [happ]
      exact h

theorem min_element_spec (data : List α) (hne : data ≠ []) :
    ∃ m, data[min_element data]? = some m ∧ (∀ y ∈ data, m ≤ y) ∧
      (∀ y ∈ data.take (min_element data), m < y) := by
  cases data with
  | nil => exact absurd rfl hne
  | cons x rest =>
    have h := min_element_loop_spec rest [x] 0 x (by simp) (by simp) (by simp)
    simpa [min_element] using h

theorem max_element_spec (data : List α) (hne : data ≠ []) :
    ∃ m, data[max_element data]? = some m ∧ (∀ y ∈ data, y ≤ m) ∧
      (∀ y ∈ data.take (max_element data), y < m) := by
  cases data with
  | nil => exact absurd rfl hne
  | cons x rest =>
    have h := max_element_loop_spec rest [x] 0 x (by simp) (by simp) (by simp)
    simpa [max_element] using h

theorem mem_take_of_getElem (data : List α) (k r : Nat) (x : α) (hk : k < r)
    (hx : data[k]? = some x) : x ∈ data.take r := by
  have h : (data.take r)[k]? = some x := by
    rw [List.getElem?_take_of_lt hk]; exact hx
  exact List.getElem?_mem h

theorem deref_eq (data : List α) (i : Nat) (x : α) (h : data[i]? = some x) :
    deref data i = value x := by
  simp [deref, h]

/-- The reductions on the buffer built by `initialize(val, n)` with `n ≥ 1`. -/
theorem initialize_value_spec (v : Vector α) (val : α) (n : Nat) (hn : 1 ≤ n)
    (sqrt : α → α) (hsqrt : ∀ x, 0 ≤ x → 0 ≤ sqrt x ∧ sqrt x * sqrt x = x) :
    (v.initialize_value val n).initialized = true ∧
    (v.initialize_value val n).data = List.replicate n val ∧
    (v.initialize_value val n).sum = value ((n : α) * val) ∧
    (v.initialize_value val n).mean = value val ∧
    (v.initialize_value val n).min = value val ∧
    (v.initialize_value val n).max = value val ∧
    (∃ r, (v.initialize_value val n).euclidean_norm sqrt = value r ∧
      r * r = (n : α) * val * val ∧ 0 ≤ r) ∧
    (∀ w, 1 ≤ w → Vector.compute_sum w (v.initialize_value val n) = value ((n : α) * val)) := by
  have hinit : (v.initialize_value val n).initialized = true := rfl
  have hdata : (v.initialize_value val n).data = List.replicate n val := rfl
  have hne : (v.initialize_value val n).data ≠ [] := by
    rw [hdata]
    intro h
    have := congrArg List.length h
    simp at this
    omega
  have hsum : (v.initialize_value val n).data.sum = (n : α) * val := by
    rw [hdata, List.sum_replicate, nsmul_eq_mul]
  have hn0 : (n : α) ≠ 0 := by
    have : 0 < n := hn
    exact_mod_cast this.ne'
  have hS : (v.initialize_value val n).sum = value ((n : α) * val) := by
    rw [sum_eq _ hinit, hsum]
  refine ⟨hinit, hdata, hS, ?_, ?_, ?_, ?_, ?_⟩
  · have hlen : (v.initialize_value val n).data.length ≠ 0 := by
      rw [hdata, List.length_replicate]; omega
    simp only [Vector.mean, check_initialized_true _ hinit, hS, Outcome.bind, if_neg hlen]
    rw [hdata, List.length_replicate, mul_div_cancel_left₀ _ hn0]
  · obtain ⟨m, hm, _, _⟩ := min_element_spec _ hne
    have hmem : m ∈ List.replicate n val := by
      rw [← hdata]; exact List.getElem?_mem hm
    rw [List.eq_of_mem_replicate hmem] at hm
    simp [Vector.min, check_initialized_true _ hinit, Outcome.bind, deref_eq _ _ _ hm]
  · obtain ⟨m, hm, _, _⟩ := max_element_spec _ hne
    have hmem : m ∈ List.replicate n val := by
      rw [← hdata]; exact List.getElem?_mem hm
    rw [List.eq_of_mem_replicate hmem] at hm
    simp [Vector.max, check_initialized_true _ hinit, Outcome.bind, deref_eq _ _ _ hm]
  · have hsq : accumulate_squares (v.initialize_value val n).data 0 = (n : α) * val * val := by
      rw [accumulate_squares_eq, hdata, List.map_replicate, List.sum_replicate, nsmul_eq_mul,
        zero_add, mul_assoc]
    have hnonneg : (0 : α) ≤ (n : α) * val * val := by
      rw [mul_assoc]
      exact mul_nonneg (Nat.cast_nonneg n) (mul_self_nonneg val)
    obtain ⟨h0, hmul⟩ := hsqrt _ hnonneg
    refine ⟨sqrt ((n : α) * val * val), ?_, hmul, h0⟩
    simp [Vector.euclidean_norm, check_initialized_true _ hinit, Outcome.bind, hsq]
  · intro w hw
    rw [compute_sum_eq _ w hinit hw, hsum]

end Lemmas




/-! ## The claims -/

section Claims

variable {α : Type} [LinearOrderedField α]

/-- C1: for an initialized buffer `B` and worker counts `w1`, `w2` between 1 and the
length of `B`, `compute_sum` with `w1` workers equals `compute_sum` with `w2` workers,
both equal the sequential `sum` of `B`, and `sum` returns the accumulated value. -/
theorem compute_sum_worker_count_independent (B : Vector α) (w1 w2 : Nat)
    (hinit : B.initialized = true)
    (h1 : 1 ≤ w1) (_h1max : w1 ≤ B.data.length)
    (h2 : 1 ≤ w2) (_h2max : w2 ≤ B.data.length) :
    Vector.compute_sum w1 B = Vector.compute_sum w2 B ∧
    Vector.compute_sum w1 B = B.sum ∧
    Vector.compute_sum w2 B = B.sum ∧
    B.sum = value (accumulate B.data 0) := by
  rw [compute_sum_eq B w1 hinit h1, compute_sum_eq B w2 hinit h2, sum_eq B hinit,
    accumulate_eq, zero_add]
  exact ⟨rfl, rfl, rfl, rfl⟩

/-- Instance of C1: five elements, two workers against five workers. -/
theorem compute_sum_worker_count_independent_witness :
    Vector.compute_sum 2 (⟨[3, -1, 4, 3 / 2, -5 / 2], true⟩ : Vector ℚ) =
      Vector.compute_sum 5 ⟨[3, -1, 4, 3 / 2, -5 / 2], true⟩ ∧
    Vector.compute_sum 2 (⟨[3, -1, 4, 3 / 2, -5 / 2], true⟩ : Vector ℚ) =
      Vector.sum ⟨[3, -1, 4, 3 / 2, -5 / 2], true⟩ ∧
    Vector.compute_sum 5 (⟨[3, -1, 4, 3 / 2, -5 / 2], true⟩ : Vector ℚ) =
      Vector.sum ⟨[3, -1, 4, 3 / 2, -5 / 2], true⟩ ∧
    Vector.sum (⟨[3, -1, 4, 3 / 2, -5 / 2], true⟩ : Vector ℚ) =
      value (accumulate [3, -1, 4, 3 / 2, -5 / 2] 0) :=
  compute_sum_worker_count_independent ⟨[3, -1, 4, 3 / 2, -5 / 2], true⟩ 2 5 rfl
    (by decide) (by decide) (by decide) (by decide)

/-- C2: for `total_length > 0` and `1 ≤ worker_count ≤ total_length`, the ranges that
`compute_sum` gives to thread ids `0 .. worker_count - 1` are ordered (each end is the
next start), pairwise disjoint, and their union is exactly `[0, total_length)`. -/
theorem chunks_ordered_disjoint_cover (total_length worker_count : Nat)
    (_hpos : 0 < total_length) (h1 : 1 ≤ worker_count) (hmax : worker_count ≤ total_length) :
    (∀ (i : Nat) (c d : Nat × Nat), (Vector.chunks total_length worker_count)[i]? = some c →
      (Vector.chunks total_length worker_count)[i + 1]? = some d → c.2 = d.1) ∧
    (∀ (i j : Nat) (c d : Nat × Nat), i < j →
      (Vector.chunks total_length worker_count)[i]? = some c →
      (Vector.chunks total_length worker_count)[j]? = some d →
      ∀ k, ¬ (c.1 ≤ k ∧ k < c.2 ∧ d.1 ≤ k ∧ k < d.2)) ∧
    (∀ k, k < total_length ↔
      ∃ c ∈ Vector.chunks total_length worker_count, c.1 ≤ k ∧ k < c.2) := by
  have hdiv : worker_count * (total_length / worker_count) ≤ total_length :=
    Nat.mul_div_le _ _
  have hcpos : 0 < total_length / worker_count := Nat.div_pos hmax (by omega)
  refine ⟨?_, ?_, ?_⟩
  · intro i c d hc hd
    obtain ⟨_, rfl⟩ := (chunks_getElem_some _ _ _ _).mp hc
    obtain ⟨hi, rfl⟩ := (chunks_getElem_some _ _ _ _).mp hd
    have hne : i ≠ worker_count - 1 := by omega
    simp [Vector.chunk_bounds, hne, Nat.add_mul]
  · intro i j c d hij hc hd k
    obtain ⟨_, rfl⟩ := (chunks_getElem_some _ _ _ _).mp hc
    obtain ⟨hj, rfl⟩ := (chunks_getElem_some _ _ _ _).mp hd
    have hne : i ≠ worker_count - 1 := by omega
    generalize total_length / worker_count = cs
    have hle : (i + 1) * cs ≤ j * cs := Nat.mul_le_mul_right _ (by omega)
    rw [Nat.add_mul, Nat.one_mul] at hle
    simp only [Vector.chunk_bounds, if_neg hne]
    omega
  · intro k
    constructor
    · intro hk
      by_cases hlt : k / (total_length / worker_count) < worker_count - 1
      · refine ⟨_, (mem_chunks _ _ _).mpr ⟨k / (total_length / worker_count), by omega, rfl⟩, ?_⟩
        have hne : k / (total_length / worker_count) ≠ worker_count - 1 := by omega
        have hlo := Nat.div_mul_le_self k (total_length / worker_count)
        have hhi : k < k / (total_length / worker_count) * (total_length / worker_count) +
            total_length / worker_count := by
          have hmod := Nat.mod_lt k hcpos
          have hsum := Nat.div_add_mod k (total_length / worker_count)
          rw [Nat.mul_comm] at hsum
          generalize k / (total_length / worker_count) * (total_length / worker_count) = q at hsum ⊢
          generalize k % (total_length / worker_count) = r at hsum hmod
          generalize total_length / worker_count = cs at hmod ⊢
          omega
        simp only [Vector.chunk_bounds, if_neg hne]
        exact ⟨hlo, hhi⟩
      · refine ⟨_, (mem_chunks _ _ _).mpr ⟨worker_count - 1, by omega, rfl⟩, ?_⟩
        have hlo := Nat.div_mul_le_self k (total_length / worker_count)
        have hle : (worker_count - 1) * (total_length / worker_count) ≤
            k / (total_length / worker_count) * (total_length / worker_count) :=
          Nat.mul_le_mul_right _ (by omega)
        simp only [Vector.chunk_bounds, if_true]
        exact ⟨le_trans hle hlo, hk⟩
    · rintro ⟨c, hc, _, hk⟩
      obtain ⟨i, hi, rfl⟩ := (mem_chunks _ _ _).mp hc
      exact lt_of_lt_of_le hk (chunk_bounds_valid total_length worker_count i hi).2

/-- Instance of C2: ten elements split among four workers. -/
theorem chunks_ordered_disjoint_cover_witness :
    Vector.chunks 10 4 = [(0, 2), (2, 4), (4, 6), (6, 10)] ∧
    (∀ k, k < 10 ↔ ∃ c ∈ Vector.chunks 10 4, c.1 ≤ k ∧ k < c.2) :=
  ⟨by decide, (chunks_ordered_disjoint_cover 10 4 (by decide) (by decide) (by decide)).2.2⟩

/-- C3: for every `total_length` and every `worker_count ≥ 1`, `compute_sum` forms exactly
`worker_count` chunks; every chunk but the last has size `total_length / worker_count`
and the last has size `total_length / worker_count + total_length % worker_count`. -/
theorem chunks_count_and_sizes (total_length worker_count : Nat) (h1 : 1 ≤ worker_count) :
    (Vector.chunks total_length worker_count).length = worker_count ∧
    (∀ c ∈ (Vector.chunks total_length worker_count).dropLast,
      c.2 = c.1 + total_length / worker_count) ∧
    (∃ c, (Vector.chunks total_length worker_count).getLast? = some c ∧
      c.2 = c.1 + (total_length / worker_count + total_length % worker_count)) := by
  obtain ⟨k, rfl⟩ : ∃ k, worker_count = k + 1 := ⟨worker_count - 1, by omega⟩
  refine ⟨by simp [Vector.chunks], ?_, ?_⟩
  · intro c hc
    simp only [Vector.chunks, List.range_succ, List.map_append, List.map_cons, List.map_nil,
      List.dropLast_concat, List.mem_map, List.mem_range] at hc
    obtain ⟨i, hi, rfl⟩ := hc
    have hne : i ≠ k := by omega
    simp [Vector.chunk_bounds, hne]
  · refine ⟨Vector.chunk_bounds total_length (k + 1) (total_length / (k + 1)) k, ?_, ?_⟩
    · simp only [Vector.chunks, List.range_succ, List.map_append, List.map_cons, List.map_nil]
      exact List.getLast?_concat _
    · have hsum := Nat.div_add_mod total_length (k + 1)
      simp only [Vector.chunk_bounds, Nat.add_sub_cancel, if_true]
      rw [Nat.add_mul, Nat.one_mul] at hsum
      generalize total_length / (k + 1) = q at hsum ⊢
      generalize total_length % (k + 1) = r at hsum ⊢
      omega

/-- Instance of C3: ten elements and four workers give sizes 2, 2, 2 and 2 + 2. -/
theorem chunks_count_and_sizes_witness :
    (Vector.chunks 10 4).length = 4 ∧
    (∀ c ∈ (Vector.chunks 10 4).dropLast, c.2 = c.1 + 10 / 4) ∧
    (∃ c, (Vector.chunks 10 4).getLast? = some c ∧ c.2 = c.1 + (10 / 4 + 10 % 4)) :=
  chunks_count_and_sizes 10 4 (by decide)

/-- C4 as stated fails: with one element and two workers `compute_sum` forms two
chunks, not one, and the first of them is the empty range `[0, 0)`. -/
theorem chunks_not_capped_counterexample :
    Vector.chunks 1 2 = [(0, 0), (0, 1)] ∧
    (Vector.chunks 1 2).length ≠ 1 ∧
    ¬ (∀ c ∈ Vector.chunks 1 2, c.1 < c.2) := by
  decide

/-- C4 amended: for a buffer of length `n > 0` and `worker_count > n` the worker count
is not capped; `compute_sum` forms `worker_count` chunks, the first `worker_count - 1`
of them the empty range `[0, 0)` and the last `[0, n)`, and still returns the
sequential sum. -/
theorem chunks_when_workers_exceed_length (n worker_count : Nat) (_hn : 0 < n)
    (hw : n < worker_count) :
    (Vector.chunks n worker_count).length = worker_count ∧
    Vector.chunks n worker_count = List.replicate (worker_count - 1) (0, 0) ++ [(0, n)] ∧
    ∀ B : Vector α, B.initialized = true → B.data.length = n →
      Vector.compute_sum worker_count B = B.sum ∧ B.sum = value (accumulate B.data 0) := by
  obtain ⟨k, rfl⟩ : ∃ k, worker_count = k + 1 := ⟨worker_count - 1, by omega⟩
  have hzero : n / (k + 1) = 0 := Nat.div_eq_of_lt hw
  refine ⟨by simp [Vector.chunks], ?_, ?_⟩
  · simp only [Vector.chunks, List.range_succ, List.map_append, List.map_cons, List.map_nil,
      hzero, Nat.add_sub_cancel]
    congr 1
    · rw [List.eq_replicate_iff]
      refine ⟨by simp, ?_⟩
      intro c hc
      obtain ⟨i, hi, rfl⟩ := List.mem_map.mp hc
      have hne : i ≠ k := by
        have := List.mem_range.mp hi; omega
      simp [Vector.chunk_bounds, hne]
    · simp [Vector.chunk_bounds]
  · intro B hinit _
    rw [compute_sum_eq B (k + 1) hinit (by omega), sum_eq B hinit, accumulate_eq, zero_add]
    exact ⟨rfl, rfl⟩

/-- Instance of C4 amended: two elements and five workers. -/
theorem chunks_when_workers_exceed_length_witness :
    Vector.chunks 2 5 = List.replicate 4 (0, 0) ++ [(0, 2)] ∧
    Vector.compute_sum 5 (⟨[3, -1], true⟩ : Vector ℚ) = Vector.sum ⟨[3, -1], true⟩ :=
  ⟨(chunks_when_workers_exceed_length (α := ℚ) 2 5 (by decide) (by decide)).2.1,
    ((chunks_when_workers_exceed_length 2 5 (by decide) (by decide)).2.2
      ⟨[3, -1], true⟩ rfl rfl).1⟩

/-- C5 fails on the code: with worker count 0 an initialized buffer passes
`check_initialized`, no exception is thrown, and `data.size() / num_threads` is
evaluated with divisor 0. -/
theorem compute_sum_zero_workers (data : List α) :
    Vector.compute_sum 0 (⟨data, true⟩ : Vector α) = undefined Fault.int_division_by_zero ∧
    Outcome.fails (Vector.compute_sum 0 (⟨data, true⟩ : Vector α)) = false := by
  simp [Vector.compute_sum, Vector.check_initialized, Outcome.bind, Outcome.fails]

/-- C6: on a vector that was never initialized, `min`, `min_index`, `max`, `max_index`,
`sum`, `mean`, `euclidean_norm`, `dot`, `export_to_file` and `compute_sum` all throw the
not-initialized `runtime_error` and so return no value. -/
theorem uninitialized_reads_throw (v : Vector α) (h : v.initialized = false) :
    v.min = throws Exception.runtime_error ∧
    v.min_index = throws Exception.runtime_error ∧
    v.max = throws Exception.runtime_error ∧
    v.max_index = throws Exception.runtime_error ∧
    v.sum = throws Exception.runtime_error ∧
    v.mean = throws Exception.runtime_error ∧
    (∀ sqrt : α → α, v.euclidean_norm sqrt = throws Exception.runtime_error) ∧
    (∀ other : Vector α, v.dot other = throws Exception.runtime_error) ∧
    v.export_to_file = throws Exception.runtime_error ∧
    (∀ num_threads : Nat, Vector.compute_sum num_threads v = throws Exception.runtime_error) := by
  have hc := check_initialized_false v h
  simp [Vector.min, Vector.min_index, Vector.max, Vector.max_index, Vector.sum, Vector.mean,
    Vector.euclidean_norm, Vector.dot, Vector.export_to_file, Vector.compute_sum, hc,
    Outcome.bind]

/-- Instance of C6: the default-constructed vector. -/
theorem uninitialized_reads_throw_witness :
    (Vector.new : Vector ℚ).initialized = false ∧
    (Vector.new : Vector ℚ).sum = throws Exception.runtime_error ∧
    (∀ num_threads : Nat,
      Vector.compute_sum num_threads (Vector.new : Vector ℚ) = throws Exception.runtime_error) :=
  ⟨rfl, (uninitialized_reads_throw (Vector.new : Vector ℚ) rfl).2.2.2.2.1,
    (uninitialized_reads_throw (Vector.new : Vector ℚ) rfl).2.2.2.2.2.2.2.2.2⟩

/-- C7 as stated fails: after `initialize(0, 0)` the buffer is empty and `sum`
returns 0 instead of failing. -/
theorem empty_buffer_sum_counterexample :
    (Vector.initialize_value (Vector.new : Vector ℚ) 0 0).data = [] ∧
    (Vector.initialize_value (Vector.new : Vector ℚ) 0 0).sum = value 0 ∧
    Outcome.fails (Vector.initialize_value (Vector.new : Vector ℚ) 0 0).sum = false := by
  simp [Vector.initialize_value, Vector.sum, Vector.check_initialized, Outcome.bind,
    Outcome.fails, accumulate]

/-- C7 amended: a buffer populated with length 0 by `initialize(value, 0)`,
`initialize_random(0)` or `import_from_file` of a source without numeric token is
initialized and empty, and on it `sum` returns 0, `euclidean_norm` returns `sqrt 0`,
`min_index` and `max_index` return 0; none of these four fails. -/
theorem empty_buffer_reductions (v : Vector α) (val : α) (draw : Nat → α)
    (file : Option (List (Option α))) (hfile : ∀ t ∈ file.getD [], t = none) :
    ∀ u ∈ [v.initialize_value val 0, v.initialize_random 0 draw, v.import_from_file file],
      u.initialized = true ∧ u.data = [] ∧
      u.sum = value 0 ∧
      (∀ sqrt : α → α, u.euclidean_norm sqrt = value (sqrt 0)) ∧
      u.min_index = value 0 ∧
      u.max_index = value 0 := by
  have hread := read_values_no_number (file.getD []) hfile
  have hempty : ∀ u : Vector α, u.initialized = true → u.data = [] →
      u.initialized = true ∧ u.data = [] ∧ u.sum = value 0 ∧
      (∀ sqrt : α → α, u.euclidean_norm sqrt = value (sqrt 0)) ∧
      u.min_index = value 0 ∧ u.max_index = value 0 := by
    intro u hi hd
    simp [Vector.sum, Vector.euclidean_norm, Vector.min_index, Vector.max_index,
      check_initialized_true u hi, hi, hd, Outcome.bind, accumulate, accumulate_squares,
      min_element, max_element]
  intro u hu
  simp only [List.mem_cons, List.mem_singleton, List.not_mem_nil, or_false] at hu
  rcases hu with rfl | rfl | rfl
  · exact hempty _ rfl (by simp [Vector.initialize_value])
  · exact hempty _ rfl (by simp [Vector.initialize_random])
  · exact hempty _ rfl (by simp [Vector.import_from_file, hread])

/-- Instance of C7 amended: a file holding the single token `abc`. -/
theorem empty_buffer_reductions_witness :
    (Vector.import_from_file (Vector.new : Vector ℚ) (some [none])).sum = value 0 ∧
    (Vector.initialize_value (Vector.new : Vector ℚ) 7 0).min_index = value 0 :=
  ⟨(empty_buffer_reductions (Vector.new : Vector ℚ) 7 (fun _ => 0) (some [none])
      (by simp) _ (by simp)).2.2.1,
    (empty_buffer_reductions (Vector.new : Vector ℚ) 7 (fun _ => 0) (some [none])
      (by simp) _ (by simp)).2.2.2.2.1⟩

/-- C8: for initialized vectors `a` and `b`, `a.dot(b)` throws `invalid_argument`
exactly when their lengths differ (and throws nothing otherwise); when the lengths are
equal it returns the sum over all `i` of `a[i] * b[i]`. -/
theorem dot_dimension_check (a b : Vector α) (ha : a.initialized = true)
    (_hb : b.initialized = true) :
    (a.dot b = throws Exception.invalid_argument ↔ a.data.length ≠ b.data.length) ∧
    (Outcome.fails (a.dot b) = true ↔ a.data.length ≠ b.data.length) ∧
    (a.data.length = b.data.length →
      a.dot b = value (∑ i in Finset.range a.data.length, a.data.getD i 0 * b.data.getD i 0)) := by
  by_cases hlen : a.data.length = b.data.length
  · have hdot : a.dot b =
        value (∑ i in Finset.range a.data.length, a.data.getD i 0 * b.data.getD i 0) := by
      simp only [Vector.dot, check_initialized_true a ha, Outcome.bind]
      rw [if_neg (by simpa using hlen), inner_product_eq _ _ _ hlen, zero_add,
        zipWith_mul_sum _ _ hlen]
    rw [hdot]
    simp [hlen, Outcome.fails]
  · have hdot : a.dot b = throws Exception.invalid_argument := by
      simp only [Vector.dot, check_initialized_true a ha, Outcome.bind]
      rw [if_pos hlen]
    rw [hdot]
    simp [hlen, Outcome.fails]

/-- Instance of C8: lengths 5 and 7. -/
theorem dot_dimension_check_witness :
    Vector.dot (⟨[1, 2, 3, 4, 5], true⟩ : Vector ℚ) ⟨[1, 2, 3, 4, 5, 6, 7], true⟩ =
      throws Exception.invalid_argument :=
  (dot_dimension_check (⟨[1, 2, 3, 4, 5], true⟩ : Vector ℚ) ⟨[1, 2, 3, 4, 5, 6, 7], true⟩
    rfl rfl).1.mpr (by decide)

/-- C9: for a non-empty initialized buffer `B`, `min_index` and `max_index` are valid
indices, `B[min_index] = min` and `B[max_index] = max`, `min ≤ B[k] ≤ max` for every index
`k`, and `min_index` / `max_index` are the smallest indices holding the minimum / maximum;
for `[3.0, -1.0, 4.0, 1.5, -2.5]` the minimum is -2.5 at index 4, the maximum 4.0 at index 2
and the sum 5.0. -/
theorem min_max_correct (B : Vector α) (hinit : B.initialized = true) (hne : B.data ≠ []) :
    (∃ (i j : Nat) (m M : α),
      B.min_index = value i ∧ B.max_index = value j ∧ B.min = value m ∧ B.max = value M ∧
      i < B.data.length ∧ j < B.data.length ∧
      B.data[i]? = some m ∧ B.data[j]? = some M ∧
      (∀ (k : Nat) (x : α), B.data[k]? = some x → m ≤ x ∧ x ≤ M) ∧
      (∀ k : Nat, B.data[k]? = some m → i ≤ k) ∧
      (∀ k : Nat, B.data[k]? = some M → j ≤ k)) ∧
    (Vector.min (⟨[3, -1, 4, 3 / 2, -5 / 2], true⟩ : Vector α) = value (-5 / 2) ∧
      Vector.min_index (⟨[3, -1, 4, 3 / 2, -5 / 2], true⟩ : Vector α) = value 4 ∧
      Vector.max (⟨[3, -1, 4, 3 / 2, -5 / 2], true⟩ : Vector α) = value 4 ∧
      Vector.max_index (⟨[3, -1, 4, 3 / 2, -5 / 2], true⟩ : Vector α) = value 2 ∧
      Vector.sum (⟨[3, -1, 4, 3 / 2, -5 / 2], true⟩ : Vector α) = value 5) := by
  constructor
  · obtain ⟨m, hm, hmin, hfirst⟩ := min_element_spec B.data hne
    obtain ⟨M, hM, hmax, hfirstM⟩ := max_element_spec B.data hne
    refine ⟨min_element B.data, max_element B.data, m, M, ?_, ?_, ?_, ?_,
      (List.getElem?_eq_some.mp hm).1, (List.getElem?_eq_some.mp hM).1, hm, hM, ?_, ?_, ?_⟩
    · simp [Vector.min_index, check_initialized_true B hinit, Outcome.bind]
    · simp [Vector.max_index, check_initialized_true B hinit, Outcome.bind]
    · simp [Vector.min, check_initialized_true B hinit, Outcome.bind, deref_eq _ _ _ hm]
    · simp [Vector.max, check_initialized_true B hinit, Outcome.bind, deref_eq _ _ _ hM]
    · intro k x hx
      exact ⟨hmin x (List.getElem?_mem hx), hmax x (List.getElem?_mem hx)⟩
    · intro k hk
      by_contra hlt
      exact lt_irrefl m (hfirst m (mem_take_of_getElem _ _ _ _ (not_le.mp hlt) hk))
    · intro k hk
      by_contra hlt
      exact lt_irrefl M (hfirstM M (mem_take_of_getElem _ _ _ _ (not_le.mp hlt) hk))
  · refine ⟨?_, ?_, ?_, ?_, ?_⟩
    · norm_num [Vector.min, Vector.check_initialized, Outcome.bind, deref, min_element,
        min_element_loop]
    · norm_num [Vector.min_index, Vector.check_initialized, Outcome.bind, min_element,
        min_element_loop]
    · norm_num [Vector.max, Vector.check_initialized, Outcome.bind, deref, max_element,
        max_element_loop]
    · norm_num [Vector.max_index, Vector.check_initialized, Outcome.bind, max_element,
        max_element_loop]
    · norm_num [Vector.sum, Vector.check_initialized, Outcome.bind, accumulate]

/-- Instance of C9: the buffer `[3, -1, 4, 3/2, -5/2]` over the rationals. -/
theorem min_max_correct_witness :
    (∃ (i j : Nat) (m M : ℚ),
      Vector.min_index (⟨[3, -1, 4, 3 / 2, -5 / 2], true⟩ : Vector ℚ) = value i ∧
      Vector.max_index (⟨[3, -1, 4, 3 / 2, -5 / 2], true⟩ : Vector ℚ) = value j ∧
      Vector.min (⟨[3, -1, 4, 3 / 2, -5 / 2], true⟩ : Vector ℚ) = value m ∧
      Vector.max (⟨[3, -1, 4, 3 / 2, -5 / 2], true⟩ : Vector ℚ) = value M ∧
      i < 5 ∧ j < 5 ∧
      ([3, -1, 4, 3 / 2, -5 / 2] : List ℚ)[i]? = some m ∧
      ([3, -1, 4, 3 / 2, -5 / 2] : List ℚ)[j]? = some M ∧
      (∀ (k : Nat) (x : ℚ), ([3, -1, 4, 3 / 2, -5 / 2] : List ℚ)[k]? = some x → m ≤ x ∧ x ≤ M) ∧
      (∀ k : Nat, ([3, -1, 4, 3 / 2, -5 / 2] : List ℚ)[k]? = some m → i ≤ k) ∧
      (∀ k : Nat, ([3, -1, 4, 3 / 2, -5 / 2] : List ℚ)[k]? = some M → j ≤ k)) ∧
    Vector.min (⟨[3, -1, 4, 3 / 2, -5 / 2], true⟩ : Vector ℚ) = value (-5 / 2) ∧
    Vector.min_index (⟨[3, -1, 4, 3 / 2, -5 / 2], true⟩ : Vector ℚ) = value 4 :=
  have h := min_max_correct (⟨[3, -1, 4, 3 / 2, -5 / 2], true⟩ : Vector ℚ) rfl (by simp)
  ⟨h.1, h.2.1, h.2.2.1⟩

/-- C10: for every value `val` and every `n ≥ 1`, after `initialize(val, n)` the buffer
is initialized and holds exactly `n` copies of `val`, so `sum = n * val`, `mean = val`,
`min = max = val`, the square of `euclidean_norm` is `n * val * val` with
`euclidean_norm ≥ 0` (for a `sqrt` that is the non-negative square root), and
`compute_sum` with any worker count `w ≥ 1` returns `n * val`; for `val = 2`, `n = 100`
and `w` in 1, 4, 7, 100 this gives sum 200, mean 2, min = max = 2 and norm 20. -/
theorem initialize_constant_reductions (v : Vector α) (val : α) (n : Nat) (hn : 1 ≤ n)
    (sqrt : α → α) (hsqrt : ∀ x, 0 ≤ x → 0 ≤ sqrt x ∧ sqrt x * sqrt x = x) :
    ((v.initialize_value val n).initialized = true ∧
      (v.initialize_value val n).data = List.replicate n val ∧
      (v.initialize_value val n).sum = value ((n : α) * val) ∧
      (v.initialize_value val n).mean = value val ∧
      (v.initialize_value val n).min = value val ∧
      (v.initialize_value val n).max = value val ∧
      (∃ r, (v.initialize_value val n).euclidean_norm sqrt = value r ∧
        r * r = (n : α) * val * val ∧ 0 ≤ r) ∧
      (∀ w, 1 ≤ w →
        Vector.compute_sum w (v.initialize_value val n) = value ((n : α) * val))) ∧
    ((v.initialize_value 2 100).sum = value 200 ∧
      (v.initialize_value 2 100).mean = value 2 ∧
      (v.initialize_value 2 100).min = value 2 ∧
      (v.initialize_value 2 100).max = value 2 ∧
      (v.initialize_value 2 100).euclidean_norm sqrt = value 20 ∧
      Vector.compute_sum 1 (v.initialize_value 2 100) = value 200 ∧
      Vector.compute_sum 4 (v.initialize_value 2 100) = value 200 ∧
      Vector.compute_sum 7 (v.initialize_value 2 100) = value 200 ∧
      Vector.compute_sum 100 (v.initialize_value 2 100) = value 200) := by
  refine ⟨initialize_value_spec v val n hn sqrt hsqrt, ?_⟩
  obtain ⟨_, _, hsum, hmean, hmin, hmax, ⟨r, hr, hrr, hr0⟩, hcs⟩ :=
    initialize_value_spec v 2 100 (by decide) sqrt hsqrt
  have h200 : ((100 : Nat) : α) * 2 = 200 := by norm_num
  rw [h200] at hsum hcs
  have hr20 : r = 20 := by
    have h400 : r * r = 20 * 20 := by rw [hrr]; norm_num
    exact (mul_self_inj hr0 (by norm_num)).mp h400
  rw [hr20] at hr
  exact ⟨hsum, hmean, hmin, hmax, hr, hcs 1 (by decide), hcs 4 (by decide),
    hcs 7 (by decide), hcs 100 (by decide)⟩

/-- Instance of C10 over the reals with `Real.sqrt`: value 2, length 100. -/
theorem initialize_constant_reductions_witness :
    (∃ r, ((Vector.new : Vector ℝ).initialize_value 2 100).euclidean_norm Real.sqrt = value r ∧
      r * r = ((100 : Nat) : ℝ) * 2 * 2 ∧ 0 ≤ r) ∧
    ((Vector.new : Vector ℝ).initialize_value 2 100).euclidean_norm Real.sqrt = value 20 ∧
    ((Vector.new : Vector ℝ).initialize_value 2 100).sum = value 200 ∧
    Vector.compute_sum 7 ((Vector.new : Vector ℝ).initialize_value 2 100) = value 200 :=
  have h := initialize_constant_reductions (Vector.new : Vector ℝ) 2 100 (by decide) Real.sqrt
    (fun x hx => ⟨Real.sqrt_nonneg x, Real.mul_self_sqrt hx⟩)
  ⟨h.1.2.2.2.2.2.2.1, h.2.2.2.2.2.1, h.2.1, h.2.2.2.2.2.2.2.2.1⟩

end Claims

/-! ## Further claims on the `Vector` reductions -/

section VectorClaims

set_option linter.unusedSectionVars false

variable {α : Type} [LinearOrderedField α]

/-- C11: for a buffer `B = [x]` of length 1 and every worker count `w ≥ 1` (also `w > 1`,
where all chunks but the last are empty), `sum`, `min`, `max`, `mean` and `compute_sum`
with `w` workers all return `x`, `min_index = max_index = 0`, and `euclidean_norm` (for a
`sqrt` that is the non-negative square root) returns the absolute value of `x`. -/
theorem single_element_reductions (B : Vector α) (x : α) (hinit : B.initialized = true)
    (hdata : B.data = [x]) (sqrt : α → α)
    (hsqrt : ∀ y, 0 ≤ y → 0 ≤ sqrt y ∧ sqrt y * sqrt y = y) :
    B.sum = value x ∧ B.min = value x ∧ B.max = value x ∧ B.mean = value x ∧
    (∀ w, 1 ≤ w → Vector.compute_sum w B = value x) ∧
    B.min_index = value 0 ∧ B.max_index = value 0 ∧
    B.euclidean_norm sqrt = value |x| := by
  have hc := check_initialized_true B hinit
  have hS : B.sum = value x := by rw [sum_eq B hinit, hdata]; simp
  refine ⟨hS, ?_, ?_, ?_, ?_, ?_, ?_, ?_⟩
  · simp [Vector.min, hc, Outcome.bind, hdata, min_element, min_element_loop, deref]
  · simp [Vector.max, hc, Outcome.bind, hdata, max_element, max_element_loop, deref]
  · simp [Vector.mean, hc, hS, Outcome.bind, hdata]
  · intro w hw
    rw [compute_sum_eq B w hinit hw, hdata]; simp
  · simp [Vector.min_index, hc, Outcome.bind, hdata, min_element, min_element_loop]
  · simp [Vector.max_index, hc, Outcome.bind, hdata, max_element, max_element_loop]
  · obtain ⟨h0, hmul⟩ := hsqrt (x * x) (mul_self_nonneg x)
    have habs : sqrt (x * x) = |x| :=
      (mul_self_inj h0 (abs_nonneg x)).mp (by rw [hmul, abs_mul_abs_self])
    simp [Vector.euclidean_norm, hc, Outcome.bind, hdata, accumulate_squares, habs]

/-- Instance of C11 over the reals with `Real.sqrt`: the buffer `[-3]` and seven workers. -/
theorem single_element_reductions_witness :
    Vector.compute_sum 7 (⟨[-3], true⟩ : Vector ℝ) = value (-3) ∧
    Vector.mean (⟨[-3], true⟩ : Vector ℝ) = value (-3) ∧
    Vector.euclidean_norm Real.sqrt (⟨[-3], true⟩ : Vector ℝ) = value |(-3 : ℝ)| :=
  have h := single_element_reductions (⟨[-3], true⟩ : Vector ℝ) (-3) rfl rfl Real.sqrt
    (fun y hy => ⟨Real.sqrt_nonneg y, Real.mul_self_sqrt hy⟩)
  ⟨h.2.2.2.2.1 7 (by decide), h.2.2.2.1, h.2.2.2.2.2.2.2⟩

/-- C12: for an initialized non-empty buffer `B`, `sum` returns a value and `mean` returns
that value divided by the number of elements of `B`. -/
theorem mean_eq_sum_div_length (B : Vector α) (hinit : B.initialized = true)
    (hne : B.data ≠ []) :
    ∃ s, B.sum = value s ∧ B.mean = value (s / (B.data.length : α)) := by
  have hlen : B.data.length ≠ 0 := fun h => hne (List.length_eq_zero.mp h)
  refine ⟨B.data.sum, sum_eq B hinit, ?_⟩
  simp only [Vector.mean, check_initialized_true B hinit, sum_eq B hinit, Outcome.bind,
    if_neg hlen]

/-- Instance of C12: the buffer `[3, -1, 4, 3/2, -5/2]` over the rationals. -/
theorem mean_eq_sum_div_length_witness :
    ∃ s, Vector.sum (⟨[3, -1, 4, 3 / 2, -5 / 2], true⟩ : Vector ℚ) = value s ∧
      Vector.mean (⟨[3, -1, 4, 3 / 2, -5 / 2], true⟩ : Vector ℚ) =
        value (s / ((5 : Nat) : ℚ)) :=
  mean_eq_sum_div_length (⟨[3, -1, 4, 3 / 2, -5 / 2], true⟩ : Vector ℚ) rfl (by simp)

/-- C13 as stated fails: on the token stream `1 abc 2` the import raises no error; it
keeps the numeric prefix `[1]`, marks the buffer initialized, and a later `sum` returns 1. -/
theorem import_malformed_counterexample :
    Vector.import_from_file (Vector.new : Vector ℚ) (some [some 1, none, some 2]) =
      { data := [1], initialized := true } ∧
    (Vector.import_from_file (Vector.new : Vector ℚ) (some [some 1, none, some 2])).sum =
      value 1 := by
  simp [Vector.import_from_file, Vector.read_values, Vector.sum, Vector.check_initialized,
    Outcome.bind, accumulate]

/-- C13 amended: `import_from_file` raises no error. On a stream whose first token that
does not read as a number comes after the numeric tokens `pre`, it replaces the contents
with exactly `pre`, in order, and marks the buffer initialized; on a stream of only
numeric tokens it replaces the contents with exactly those values, in order, and marks
the buffer initialized. -/
theorem import_keeps_numeric_prefix (v : Vector α) (pre : List α)
    (rest : List (Option α)) :
    v.import_from_file (some (pre.map some ++ none :: rest)) =
      { data := pre, initialized := true } ∧
    v.import_from_file (some (pre.map some)) = { data := pre, initialized := true } := by
  have h1 : ∀ l : List α, Vector.read_values (l.map some ++ none :: rest) = l := by
    intro l
    induction l with
    | nil => rfl
    | cons y ys ih => simp [Vector.read_values, ih]
  have h2 : ∀ l : List α, Vector.read_values (l.map some) = l := by
    intro l
    induction l with
    | nil => rfl
    | cons y ys ih => simp [Vector.read_values, ih]
  simp [Vector.import_from_file, h1, h2]

/-- C14 fails on the code: whatever count the sweep of `performance_test` prints
(1, 2, 4, 8, 16), the `compute_sum` call it times splits the buffer into
`hardware_concurrency` chunks and not into the printed number of chunks. -/
theorem performance_test_ignores_requested_count (hardware_concurrency size : Nat)
    (draw : Nat → α) :
    (performance_test hardware_concurrency size draw).map Sample.label = [1, 2, 4, 8, 16] ∧
    (∀ s ∈ performance_test hardware_concurrency size draw,
      s.chunks.length = hardware_concurrency) ∧
    (performance_test 8 16 draw).map (fun s => (s.label, s.chunks.length)) =
      [(1, 8), (2, 8), (4, 8), (8, 8), (16, 8)] := by
  refine ⟨?_, ?_, ?_⟩
  · simp [performance_test, sweep_loop]
  · intro s hs
    simp only [performance_test, List.mem_map] at hs
    obtain ⟨k, _, rfl⟩ := hs
    simp [Vector.chunks]
  · simp [performance_test, sweep_loop, Vector.chunks]

/-- C15 fails on the code: `dot` never checks its argument. With a never-filled `b`
(no data, not initialized) and an initialized `a`, `a.dot(b)` throws `invalid_argument`
when `a` is non-empty and returns 0 when `a` is empty; it never throws the
not-initialized `runtime_error`. -/
theorem dot_uninitialized_argument (data : List α) :
    (Vector.new : Vector α).initialized = false ∧
    Vector.dot (⟨data, true⟩ : Vector α) Vector.new =
      (if data.length ≠ 0 then throws Exception.invalid_argument else value 0) ∧
    Vector.dot (⟨[1, 1, 1], true⟩ : Vector α) Vector.new =
      throws Exception.invalid_argument ∧
    Vector.dot (⟨[], true⟩ : Vector α) Vector.new = value 0 := by
  refine ⟨rfl, ?_, ?_, ?_⟩
  · by_cases h : data.length = 0
    · have hd : data = [] := List.length_eq_zero.mp h
      subst hd
      simp [Vector.dot, Vector.check_initialized, Outcome.bind, Vector.new, inner_product]
    · simp [Vector.dot, Vector.check_initialized, Outcome.bind, Vector.new, h]
  · simp [Vector.dot, Vector.check_initialized, Outcome.bind, Vector.new]
  · simp [Vector.dot, Vector.check_initialized, Outcome.bind, Vector.new, inner_product]

end VectorClaims

/-! ## Helper lemmas on the matrix classes -/

section MatrixLemmas

set_option linter.unusedSectionVars false

variable {α : Type} [LinearOrderedField α]

theorem for_loop_zero {σ : Type} (body : Nat → σ → Outcome σ) (init : σ) :
    for_loop 0 body init = value init := rfl

theorem for_loop_succ {σ : Type} (n : Nat) (body : Nat → σ → Outcome σ) (init : σ) :
    for_loop (n + 1) body init = (for_loop n body init).bind (body n) := by
  simp [for_loop, List.range_succ, List.foldl_append]

/-- Invariant rule for `for_loop`: the loop returns, in a state satisfying the invariant. -/
theorem for_loop_inv {σ : Type} (P : Nat → σ → Prop) (n : Nat)
    (body : Nat → σ → Outcome σ) (init : σ) (h0 : P 0 init)
    (hstep : ∀ i s, i < n → P i s → ∃ s', body i s = value s' ∧ P (i + 1) s') :
    ∃ s, for_loop n body init = value s ∧ P n s := by
  induction n with
  | zero => exact ⟨init, rfl, h0⟩
  | succ n ih =>
    obtain ⟨s, hs, hP⟩ := ih (fun i s hi hp => hstep i s (by omega) hp)
    obtain ⟨s', hs', hP'⟩ := hstep n s (by omega) hP
    refine ⟨s', ?_, hP'⟩
    rw [for_loop_succ, hs]
    exact hs'

theorem resize_nil {β : Type} (n : Nat) (val : β) : resize [] n val = List.replicate n val := by
  simp [resize]

theorem dense_new_shaped (rows cols : Nat) : (DenseMatrix.new rows cols : DenseMatrix α).shaped := by
  simp only [DenseMatrix.shaped, DenseMatrix.new, resize_nil, List.length_replicate, true_and]
  intro row hrow
  rw [List.eq_of_mem_replicate hrow, List.length_replicate]

theorem dense_new_entry (rows cols i j : Nat) :
    (DenseMatrix.new rows cols : DenseMatrix α).entry i j = 0 := by
  simp only [DenseMatrix.entry, DenseMatrix.new, resize_nil, List.getD_eq_getElem?_getD,
    List.getElem?_replicate]
  by_cases hi : i < rows
  · by_cases hj : j < cols
    · simp [hi, hj]
    · simp [hi, hj]
  · simp [hi]

theorem dense_row_some (m : DenseMatrix α) (hm : m.shaped) (i : Nat) (hi : i < m.rows) :
    ∃ row, m.data[i]? = some row ∧ row.length = m.cols := by
  have hlt : i < m.data.length := by rw [hm.1]; exact hi
  exact ⟨m.data[i], List.getElem?_eq_getElem hlt, hm.2 _ (List.getElem_mem hlt)⟩

theorem dense_index2 (m : DenseMatrix α) (hm : m.shaped) (i j : Nat) (hi : i < m.rows)
    (hj : j < m.cols) : index2 m.data i j = value (m.entry i j) := by
  obtain ⟨row, hrow, hlen⟩ := dense_row_some m hm i hi
  have hlt : j < row.length := by rw [hlen]; exact hj
  simp [index2, index1, DenseMatrix.entry, hrow, List.getElem?_eq_getElem hlt]

theorem dense_get (m : DenseMatrix α) (hm : m.shaped) (i j : Nat) (hi : i < m.rows)
    (hj : j < m.cols) : m.get i j = value (m.entry i j) := by
  have hcond : ¬ (i ≥ m.rows ∨ j ≥ m.cols) := by omega
  simp only [DenseMatrix.get, if_neg hcond]
  exact dense_index2 m hm i j hi hj

theorem dense_set (m : DenseMatrix α) (hm : m.shaped) (i j : Nat) (hi : i < m.rows)
    (hj : j < m.cols) (x : α) :
    ∃ m', m.set i j x = value m' ∧ m'.shaped ∧ m'.rows = m.rows ∧ m'.cols = m.cols ∧
      ∀ a b, m'.entry a b = if a = i ∧ b = j then x else m.entry a b := by
  obtain ⟨row, hrow, hlen⟩ := dense_row_some m hm i hi
  have hlt : j < row.length := by rw [hlen]; exact hj
  have hilt : i < m.data.length := by rw [hm.1]; exact hi
  have hcond : ¬ (i ≥ m.rows ∨ j ≥ m.cols) := by omega
  refine ⟨{ m with data := m.data.set i (row.set j x) }, ?_, ?_, rfl, rfl, ?_⟩
  · simp [DenseMatrix.set, if_neg hcond, assign2, assign1, hrow, hlt, Outcome.bind]
  · refine ⟨by simp [hm.1], ?_⟩
    intro r hr
    rcases List.mem_or_eq_of_mem_set hr with h | h
    · exact hm.2 r h
    · rw [h, List.length_set, hlen]
  · intro a b
    simp only [DenseMatrix.entry, List.getD_eq_getElem?_getD]
    by_cases ha : a = i
    · subst ha
      rw [List.getElem?_set_self hilt, hrow]
      by_cases hb : b = j
      · subst hb
        simp [List.getElem?_set_self hlt]
      · simp [hb, List.getElem?_set_ne (Ne.symm hb)]
    · simp [ha, List.getElem?_set_ne (Ne.symm ha)]

theorem dense_ext (m1 m2 : DenseMatrix α) (h1 : m1.shaped) (h2 : m2.shaped)
    (hr : m1.rows = m2.rows) (hc : m1.cols = m2.cols)
    (h : ∀ i j, i < m1.rows → j < m1.cols → m1.entry i j = m2.entry i j) : m1 = m2 := by
  obtain ⟨d1, r1, c1⟩ := m1
  obtain ⟨d2, r2, c2⟩ := m2
  simp only [DenseMatrix.shaped] at h1 h2
  simp only at hr hc h
  subst hr hc
  have hd : d1 = d2 := by
    apply List.ext_getElem (by rw [h1.1, h2.1])
    intro i hi1 hi2
    have hl1 : d1[i].length = c1 := h1.2 _ (List.getElem_mem hi1)
    have hl2 : d2[i].length = c1 := h2.2 _ (List.getElem_mem hi2)
    apply List.ext_getElem (by rw [hl1, hl2])
    intro j hj1 hj2
    have := h i j (by rw [← h1.1]; exact hi1) (by rw [← hl1]; exact hj1)
    simpa [DenseMatrix.entry, List.getElem?_eq_getElem hi1, List.getElem?_eq_getElem hi2,
      List.getElem?_eq_getElem hj1, List.getElem?_eq_getElem hj2] using this
  rw [hd]

/-- A double loop whose body stores `f i j` at position `tgt i j` of the result fills
every targeted position and keeps the shape of the result. -/
theorem fill_loop (R C : Nat) (body : Nat → Nat → DenseMatrix α → Outcome (DenseMatrix α))
    (tgt : Nat → Nat → Nat × Nat) (f : Nat → Nat → α) (res0 : DenseMatrix α)
    (hshape : res0.shaped)
    (hbody : ∀ i j res, i < R → j < C →
      body i j res = res.set (tgt i j).1 (tgt i j).2 (f i j))
    (htgt : ∀ i j, i < R → j < C → (tgt i j).1 < res0.rows ∧ (tgt i j).2 < res0.cols)
    (hinj : ∀ i j i' j', i < R → j < C → i' < R → j' < C →
      tgt i j = tgt i' j' → i = i' ∧ j = j') :
    ∃ res, for_loop R (fun i res => for_loop C (fun j res => body i j res) res) res0 =
        value res ∧
      res.shaped ∧ res.rows = res0.rows ∧ res.cols = res0.cols ∧
      ∀ i j, i < R → j < C → res.entry (tgt i j).1 (tgt i j).2 = f i j := by
  have houter := for_loop_inv
    (fun i (res : DenseMatrix α) => res.shaped ∧ res.rows = res0.rows ∧ res.cols = res0.cols ∧
      ∀ i' j', i' < R → j' < C → i' < i → res.entry (tgt i' j').1 (tgt i' j').2 = f i' j')
    R (fun i res => for_loop C (fun j res => body i j res) res) res0
    ⟨hshape, rfl, rfl, fun i' j' _ _ h => absurd h (Nat.not_lt_zero _)⟩
    (by
      intro i s hi ⟨hs, hrows, hcols, hdone⟩
      have hinner := for_loop_inv
        (fun j (res : DenseMatrix α) => res.shaped ∧ res.rows = res0.rows ∧
          res.cols = res0.cols ∧
          ∀ i' j', i' < R → j' < C → (i' < i ∨ (i' = i ∧ j' < j)) →
            res.entry (tgt i' j').1 (tgt i' j').2 = f i' j')
        C (fun j res => body i j res) s
        ⟨hs, hrows, hcols, fun i' j' hi' hj' h => by
          rcases h with h | ⟨_, h⟩
          · exact hdone i' j' hi' hj' h
          · exact absurd h (Nat.not_lt_zero _)⟩
        (by
          intro j t hj ⟨ht, htr, htc, htdone⟩
          obtain ⟨hb1, hb2⟩ := htgt i j hi hj
          obtain ⟨t', hset, ht', htr', htc', hentry⟩ :=
            dense_set t ht (tgt i j).1 (tgt i j).2 (by rw [htr]; exact hb1)
              (by rw [htc]; exact hb2) (f i j)
          refine ⟨t', (hbody i j t hi hj).trans hset, ht', by rw [htr', htr],
            by rw [htc', htc], ?_⟩
          intro i' j' hi' hj' h
          rw [hentry]
          by_cases heq : tgt i' j' = tgt i j
          · obtain ⟨h1, h2⟩ := hinj i' j' i j hi' hj' hi hj heq
            subst h1 h2
            simp
          · have hne : ¬ ((tgt i' j').1 = (tgt i j).1 ∧ (tgt i' j').2 = (tgt i j).2) := by
              intro hh
              exact heq (Prod.ext hh.1 hh.2)
            rw [if_neg hne]
            apply htdone i' j' hi' hj'
            rcases h with h | ⟨h1, h2⟩
            · exact Or.inl h
            · subst h1
              refine Or.inr ⟨rfl, ?_⟩
              rcases Nat.lt_succ_iff_lt_or_eq.mp h2 with h3 | h3
              · exact h3
              · subst h3
                exact absurd rfl heq)
      obtain ⟨s', hs', hs'shape, hs'r, hs'c, hs'done⟩ := hinner
      refine ⟨s', hs', hs'shape, hs'r, hs'c, ?_⟩
      intro i' j' hi' hj' h
      apply hs'done i' j' hi' hj'
      rcases Nat.lt_succ_iff_lt_or_eq.mp h with h1 | h1
      · exact Or.inl h1
      · exact Or.inr ⟨h1, hj'⟩)
  obtain ⟨res, hres, hs, hr, hc, hdone⟩ := houter
  exact ⟨res, hres, hs, hr, hc, fun i j hi hj => hdone i j hi hj hi⟩

theorem dense_transpose_spec (m : DenseMatrix α) (hm : m.shaped) :
    ∃ t, m.transpose = value t ∧ t.shaped ∧ t.rows = m.cols ∧ t.cols = m.rows ∧
      ∀ i j, i < m.rows → j < m.cols → t.entry j i = m.entry i j := by
  have h := fill_loop m.rows m.cols
    (fun i j res => (index2 m.data i j).bind fun x => res.set j i x)
    (fun i j => (j, i)) (fun i j => m.entry i j) (DenseMatrix.new m.cols m.rows)
    (dense_new_shaped _ _)
    (by
      intro i j res hi hj
      simp only [dense_index2 m hm i j hi hj, Outcome.bind])
    (fun i j hi hj => ⟨hj, hi⟩)
    (by
      intro i j i' j' _ _ _ _ h
      simp only [Prod.mk.injEq] at h
      exact ⟨h.2, h.1⟩)
  exact h

theorem dense_add_spec (a b : DenseMatrix α) (ha : a.shaped) (hb : b.shaped)
    (hr : b.rows = a.rows) (hc : b.cols = a.cols) :
    ∃ s, a.add (Matrix.dense b) = value s ∧ s.shaped ∧ s.rows = a.rows ∧ s.cols = a.cols ∧
      ∀ i j, i < a.rows → j < a.cols → s.entry i j = a.entry i j + b.entry i j := by
  have hcond : ¬ (b.rows ≠ a.rows ∨ b.cols ≠ a.cols) := by simp [hr, hc]
  have h := fill_loop a.rows a.cols
    (fun i j res => (index2 a.data i j).bind fun x => (b.get i j).bind fun y =>
      res.set i j (x + y))
    (fun i j => (i, j)) (fun i j => a.entry i j + b.entry i j) (DenseMatrix.new a.rows a.cols)
    (dense_new_shaped _ _)
    (by
      intro i j res hi hj
      simp only [dense_index2 a ha i j hi hj,
        dense_get b hb i j (by rw [hr]; exact hi) (by rw [hc]; exact hj), Outcome.bind])
    (fun i j hi hj => ⟨hi, hj⟩)
    (by
      intro i j i' j' _ _ _ _ h
      simp only [Prod.mk.injEq] at h
      exact h)
  simp only [DenseMatrix.add, if_neg hcond]
  exact h

theorem dot_loop (a b : DenseMatrix α) (ha : a.shaped) (hb : b.shaped)
    (hab : a.cols = b.rows) (i j : Nat) (hi : i < a.rows) (hj : j < b.cols) :
    for_loop a.cols (fun k sum =>
      (index2 a.data i k).bind fun x => (b.get k j).bind fun y => value (sum + x * y)) 0 =
      value (∑ k in Finset.range a.cols, a.entry i k * b.entry k j) := by
  obtain ⟨s, hs, hP⟩ := for_loop_inv
    (fun k (sum : α) => sum = ∑ k' in Finset.range k, a.entry i k' * b.entry k' j)
    a.cols (fun k sum =>
      (index2 a.data i k).bind fun x => (b.get k j).bind fun y => value (sum + x * y)) 0
    (by simp)
    (by
      intro k sum hk hsum
      refine ⟨sum + a.entry i k * b.entry k j, ?_, ?_⟩
      · simp only [dense_index2 a ha i k hi hk,
          dense_get b hb k j (by rw [← hab]; exact hk) hj, Outcome.bind]
      · show sum + a.entry i k * b.entry k j =
          ∑ k' in Finset.range (k + 1), a.entry i k' * b.entry k' j
        rw [Finset.sum_range_succ, hsum])
  rw [hs, hP]

theorem dense_multiply_spec (a b : DenseMatrix α) (ha : a.shaped) (hb : b.shaped)
    (hab : a.cols = b.rows) :
    ∃ p, a.multiplyMatrix (Matrix.dense b) = value p ∧ p.shaped ∧ p.rows = a.rows ∧
      p.cols = b.cols ∧
      ∀ i j, i < a.rows → j < b.cols →
        p.entry i j = ∑ k in Finset.range a.cols, a.entry i k * b.entry k j := by
  have hcond : ¬ (a.cols ≠ b.rows) := by simp [hab]
  have h := fill_loop a.rows b.cols
    (fun i j res => (for_loop a.cols (fun k sum =>
      (index2 a.data i k).bind fun x => (b.get k j).bind fun y => value (sum + x * y)) 0).bind
        fun sum => res.set i j sum)
    (fun i j => (i, j)) (fun i j => ∑ k in Finset.range a.cols, a.entry i k * b.entry k j)
    (DenseMatrix.new a.rows b.cols) (dense_new_shaped _ _)
    (by
      intro i j res hi hj
      show (for_loop a.cols (fun k sum =>
        (index2 a.data i k).bind fun x => (b.get k j).bind fun y => value (sum + x * y)) 0).bind
          (fun sum => res.set i j sum) = _
      rw [dot_loop a b ha hb hab i j hi hj]
      rfl)
    (fun i j hi hj => ⟨hi, hj⟩)
    (by
      intro i j i' j' _ _ _ _ h
      simp only [Prod.mk.injEq] at h
      exact h)
  simp only [DenseMatrix.multiplyMatrix, if_neg hcond]
  exact h

theorem index1_eq (data : List α) (i : Nat) (hi : i < data.length) :
    index1 data i = value (data.getD i 0) := by
  simp [index1, List.getElem?_eq_getElem hi]

theorem diag_get (d : DiagonalMatrix α) (hd : d.data.length = d.size) (i : Nat)
    (hi : i < d.size) : d.get i = value (d.data.getD i 0) := by
  have hcond : ¬ (i ≥ d.size) := by omega
  simp only [DiagonalMatrix.get, if_neg hcond, if_pos hi]
  exact index1_eq d.data i (by rw [hd]; exact hi)

theorem diag_set (d : DiagonalMatrix α) (hd : d.data.length = d.size) (i : Nat)
    (hi : i < d.size) (x : α) :
    ∃ d', d.set i x = value d' ∧ d'.size = d.size ∧ d'.data.length = d'.size ∧
      ∀ a, d'.data.getD a 0 = if a = i then x else d.data.getD a 0 := by
  have hcond : ¬ (i ≥ d.size) := by omega
  have hlt : i < d.data.length := by rw [hd]; exact hi
  refine ⟨{ d with data := d.data.set i x }, ?_, rfl, by simp [hd], ?_⟩
  · simp [DiagonalMatrix.set, if_neg hcond, assign1, hlt, Outcome.bind]
  · intro a
    simp only [List.getD_eq_getElem?_getD]
    by_cases ha : a = i
    · subst ha
      simp [List.getElem?_set_self hlt]
    · simp [ha, List.getElem?_set_ne (Ne.symm ha)]

theorem diag_fill_loop (n : Nat) (body : Nat → DiagonalMatrix α → Outcome (DiagonalMatrix α))
    (f : Nat → α) (res0 : DiagonalMatrix α) (h0 : res0.data.length = res0.size)
    (hn : res0.size = n) (hbody : ∀ i res, i < n → body i res = res.set i (f i)) :
    ∃ res, for_loop n body res0 = value res ∧ res.size = n ∧ res.data.length = res.size ∧
      ∀ i, i < n → res.data.getD i 0 = f i := by
  obtain ⟨res, hres, hsz, hlen, hdone⟩ := for_loop_inv
    (fun i (res : DiagonalMatrix α) => res.size = n ∧ res.data.length = res.size ∧
      ∀ i', i' < i → res.data.getD i' 0 = f i')
    n body res0 ⟨hn, h0, fun i' h => absurd h (Nat.not_lt_zero _)⟩
    (by
      intro i s hi ⟨hsz, hlen, hdone⟩
      obtain ⟨s', hset, hsz', hlen', hentry⟩ := diag_set s hlen i (by rw [hsz]; exact hi) (f i)
      refine ⟨s', (hbody i s hi).trans hset, by rw [hsz', hsz], hlen', ?_⟩
      intro i' hi'
      rw [hentry]
      by_cases heq : i' = i
      · simp [heq]
      · rw [if_neg heq]
        exact hdone i' (by omega))
  exact ⟨res, hres, hsz, hlen, fun i hi => hdone i hi⟩

theorem diag_new_wf (n : Nat) :
    (DiagonalMatrix.new n : DiagonalMatrix α).data.length =
      (DiagonalMatrix.new n : DiagonalMatrix α).size := by
  simp [DiagonalMatrix.new, resize_nil]

theorem diag_multiply_spec (d1 d2 : DiagonalMatrix α) (h1 : d1.data.length = d1.size)
    (h2 : d2.data.length = d2.size) (hsize : d2.size = d1.size) :
    ∃ p, d1.multiplyMatrix (Matrix.diagonal d2) = value p ∧ p.size = d1.size ∧
      p.data.length = p.size ∧
      ∀ i, i < d1.size → p.data.getD i 0 = d1.data.getD i 0 * d2.data.getD i 0 := by
  have hcond : ¬ (d2.size ≠ d1.size) := by simp [hsize]
  have h := diag_fill_loop d1.size
    (fun i res => (index1 d1.data i).bind fun a => (d2.get i).bind fun b => res.set i (a * b))
    (fun i => d1.data.getD i 0 * d2.data.getD i 0) (DiagonalMatrix.new d1.size)
    (diag_new_wf _) rfl
    (by
      intro i res hi
      simp only [index1_eq d1.data i (by rw [h1]; exact hi),
        diag_get d2 h2 i (by rw [hsize]; exact hi), Outcome.bind])
  simp only [DiagonalMatrix.multiplyMatrix, if_neg hcond]
  exact h

theorem diag_add_spec (d1 d2 : DiagonalMatrix α) (h1 : d1.data.length = d1.size)
    (h2 : d2.data.length = d2.size) (hsize : d2.size = d1.size) :
    ∃ p, d1.add (Matrix.diagonal d2) = value p ∧ p.size = d1.size ∧
      p.data.length = p.size ∧
      ∀ i, i < d1.size → p.data.getD i 0 = d1.data.getD i 0 + d2.data.getD i 0 := by
  have hcond : ¬ (d2.size ≠ d1.size) := by simp [hsize]
  have h := diag_fill_loop d1.size
    (fun i res => (index1 d1.data i).bind fun a => (d2.get i).bind fun b => res.set i (a + b))
    (fun i => d1.data.getD i 0 + d2.data.getD i 0) (DiagonalMatrix.new d1.size)
    (diag_new_wf _) rfl
    (by
      intro i res hi
      simp only [index1_eq d1.data i (by rw [h1]; exact hi),
        diag_get d2 h2 i (by rw [hsize]; exact hi), Outcome.bind])
  simp only [DiagonalMatrix.add, if_neg hcond]
  exact h

theorem diag_print_eq (d : DiagonalMatrix α) (hd : d.data.length = d.size) :
    d.print = value ((List.range d.size).map fun i =>
      (List.range d.size).map fun j => if i = j then d.data.getD i 0 else 0) := by
  have hrow : ∀ i ∈ List.range d.size,
      collect ((List.range d.size).map fun j =>
        if i = j then index1 d.data i else value (0 : α)) =
      value ((List.range d.size).map fun j => if i = j then d.data.getD i 0 else 0) := by
    intro i hi
    have hlt : i < d.data.length := by rw [hd]; exact List.mem_range.mp hi
    rw [← collect_map_value]
    congr 1
    apply List.map_congr_left
    intro j _
    by_cases hij : i = j
    · simp only [if_pos hij]; exact index1_eq d.data i hlt
    · simp only [if_neg hij]
  unfold DiagonalMatrix.print
  rw [List.map_congr_left hrow, collect_map_value]

theorem dense_view_spec (d : DiagonalMatrix α) (hd : d.data.length = d.size) :
    ∃ v, d.dense_view = value v ∧ v.shaped ∧ v.rows = d.size ∧ v.cols = d.size ∧
      ∀ i j, i < d.size → j < d.size →
        v.entry i j = if i = j then d.data.getD i 0 else 0 := by
  refine ⟨DenseMatrix.mk ((List.range d.size).map fun i =>
      (List.range d.size).map fun j => if i = j then d.data.getD i 0 else 0)
    d.size d.size, ?_, ?_, rfl, rfl, ?_⟩
  · simp [DiagonalMatrix.dense_view, diag_print_eq d hd, Outcome.bind]
  · refine ⟨by simp, ?_⟩
    intro row hrow
    obtain ⟨i, _, rfl⟩ := List.mem_map.mp hrow
    simp
  · intro i j hi hj
    simp [DenseMatrix.entry, List.getElem?_range hi, List.getElem?_range hj]

end MatrixLemmas

/-! ## The claims on the matrix classes -/

section MatrixClaims

set_option linter.unusedSectionVars false

variable {α : Type} [LinearOrderedField α]

/-- C16 fails on the code: `import` resizes only the number of rows, so rows that already
exist keep their old length. Importing a 2 x 2 file into a 2 x 3 matrix leaves `cols = 2`
with rows of 3 entries, and importing a 2 x 3 file into a 2 x 2 matrix writes
`data[0][2]` outside a row of 2 entries. -/
theorem dense_import_breaks_shape :
    (DenseMatrix.new 2 3 : DenseMatrix ℚ).shaped ∧
    DenseMatrix.import_matrix (DenseMatrix.new 2 3 : DenseMatrix ℚ)
      (some ⟨2, 2, [1, 2, 3, 4]⟩) = value ⟨[[1, 2, 0], [3, 4, 0]], 2, 2⟩ ∧
    ¬ (⟨[[1, 2, 0], [3, 4, 0]], 2, 2⟩ : DenseMatrix ℚ).shaped ∧
    (DenseMatrix.new 2 2 : DenseMatrix ℚ).shaped ∧
    DenseMatrix.import_matrix (DenseMatrix.new 2 2 : DenseMatrix ℚ)
      (some ⟨2, 3, [1, 2, 3, 4, 5, 6]⟩) = undefined Fault.index_out_of_bounds := by
  refine ⟨dense_new_shaped 2 3, ?_, ?_, dense_new_shaped 2 2, ?_⟩
  · simp [DenseMatrix.import_matrix, DenseMatrix.new, resize, for_loop, List.range_succ,
      DenseMatrix.read_entry, index2, index1, assign2, assign1, Outcome.bind]
  · simp [DenseMatrix.shaped]
  · simp [DenseMatrix.import_matrix, DenseMatrix.new, resize, for_loop, List.range_succ,
      DenseMatrix.read_entry, index2, index1, assign2, assign1, Outcome.bind]

/-- C17 fails on the code: `DiagonalMatrix::transpose` returns a freshly constructed
matrix of the same size whose diagonal entries are all 0, whatever the entries of `d`;
for the diagonal `[5, 7]` it returns `[0, 0]`. -/
theorem diagonal_transpose_is_zero (d : DiagonalMatrix α) :
    d.transpose.size = d.size ∧
    d.transpose.data = List.replicate d.size 0 ∧
    (DiagonalMatrix.transpose (⟨[5, 7], 2⟩ : DiagonalMatrix α)).data = [0, 0] ∧
    (DiagonalMatrix.transpose (⟨[5, 7], 2⟩ : DiagonalMatrix α)).data ≠ [5, 7] := by
  simp [DiagonalMatrix.transpose, DiagonalMatrix.new, resize_nil]

/-- C18: for dense matrices `a` (r x c) and `b` (r' x c'), `a.multiplyMatrix(b)` throws
`invalid_argument` exactly when `c ≠ r'` (and throws nothing otherwise); when `c = r'` it
returns an r x c' matrix whose entry `(i, j)` is the sum over `k < c` of
`a(i, k) * b(k, j)`, so no inner `get` or `set` throws `out_of_range`. -/
theorem dense_multiply_correct (a b : DenseMatrix α) (ha : a.shaped) (hb : b.shaped) :
    (a.multiplyMatrix (Matrix.dense b) = throws Exception.invalid_argument ↔
      a.cols ≠ b.rows) ∧
    (Outcome.fails (a.multiplyMatrix (Matrix.dense b)) = true ↔ a.cols ≠ b.rows) ∧
    (a.cols = b.rows →
      ∃ p, a.multiplyMatrix (Matrix.dense b) = value p ∧ p.shaped ∧
        p.rows = a.rows ∧ p.cols = b.cols ∧
        ∀ i j, i < a.rows → j < b.cols →
          p.entry i j = ∑ k in Finset.range a.cols, a.entry i k * b.entry k j) := by
  by_cases hab : a.cols = b.rows
  · obtain ⟨p, hp, hrest⟩ := dense_multiply_spec a b ha hb hab
    refine ⟨?_, ?_, fun _ => ⟨p, hp, hrest⟩⟩
    · rw [hp]; simp [hab]
    · rw [hp]; simp [hab, Outcome.fails]
  · have hthrow : a.multiplyMatrix (Matrix.dense b) = throws Exception.invalid_argument := by
      simp only [DenseMatrix.multiplyMatrix]
      rw [if_pos hab]
    refine ⟨?_, ?_, fun h => absurd h hab⟩
    · rw [hthrow]; simp [hab]
    · rw [hthrow]; simp [hab, Outcome.fails]

/-- Instance of C18: a 2 x 3 matrix times a 3 x 2 matrix. -/
theorem dense_multiply_correct_witness :
    ∃ p, DenseMatrix.multiplyMatrix (⟨[[1, 2, 3], [4, 5, 6]], 2, 3⟩ : DenseMatrix ℚ)
        (Matrix.dense ⟨[[1, 0], [0, 1], [1, 1]], 3, 2⟩) = value p ∧ p.shaped ∧
      p.rows = 2 ∧ p.cols = 2 ∧
      ∀ i j, i < 2 → j < 2 →
        p.entry i j = ∑ k in Finset.range 3,
          (⟨[[1, 2, 3], [4, 5, 6]], 2, 3⟩ : DenseMatrix ℚ).entry i k *
            (⟨[[1, 0], [0, 1], [1, 1]], 3, 2⟩ : DenseMatrix ℚ).entry k j :=
  (dense_multiply_correct (⟨[[1, 2, 3], [4, 5, 6]], 2, 3⟩ : DenseMatrix ℚ)
    ⟨[[1, 0], [0, 1], [1, 1]], 3, 2⟩ (by simp [DenseMatrix.shaped])
    (by simp [DenseMatrix.shaped])).2.2 rfl

/-- C19: for diagonal matrices `d1`, `d2` of the same size, the dense view of
`d1.multiplyMatrix(d2)` equals `DenseMatrix::multiplyMatrix` applied to the dense views of
`d1` and `d2`, and the dense view of `d1.add(d2)` equals `DenseMatrix::add` of the dense
views. -/
theorem diagonal_refines_dense (d1 d2 : DiagonalMatrix α) (h1 : d1.data.length = d1.size)
    (h2 : d2.data.length = d2.size) (hsize : d1.size = d2.size) :
    ∃ v1 v2, d1.dense_view = value v1 ∧ d2.dense_view = value v2 ∧
      (∃ p vp, d1.multiplyMatrix (Matrix.diagonal d2) = value p ∧
        p.dense_view = value vp ∧ v1.multiplyMatrix (Matrix.dense v2) = value vp) ∧
      (∃ s vs, d1.add (Matrix.diagonal d2) = value s ∧
        s.dense_view = value vs ∧ v1.add (Matrix.dense v2) = value vs) := by
  obtain ⟨v1, hv1, hv1s, hv1r, hv1c, hv1e⟩ := dense_view_spec d1 h1
  obtain ⟨v2, hv2, hv2s, hv2r, hv2c, hv2e⟩ := dense_view_spec d2 h2
  refine ⟨v1, v2, hv1, hv2, ?_, ?_⟩
  · obtain ⟨p, hp, hpsz, hplen, hpe⟩ := diag_multiply_spec d1 d2 h1 h2 hsize.symm
    obtain ⟨vp, hvp, hvps, hvpr, hvpc, hvpe⟩ := dense_view_spec p hplen
    obtain ⟨q, hq, hqs, hqr, hqc, hqe⟩ :=
      dense_multiply_spec v1 v2 hv1s hv2s (by rw [hv1c, hv2r, hsize])
    refine ⟨p, vp, hp, hvp, ?_⟩
    rw [hq]
    congr 1
    apply dense_ext q vp hqs hvps (by rw [hqr, hv1r, hvpr, hpsz])
      (by rw [hqc, hv2c, hvpc, hpsz, hsize])
    intro i j hi hj
    have hi1 : i < d1.size := by rw [hqr, hv1r] at hi; exact hi
    have hj2 : j < d2.size := by rw [hqc, hv2c] at hj; exact hj
    rw [hqe i j (by rw [hv1r]; exact hi1) (by rw [hv2c]; exact hj2),
      hvpe i j (by rw [hpsz]; exact hi1) (by rw [hpsz, hsize]; exact hj2), hv1c]
    have hsum : ∑ k in Finset.range d1.size, v1.entry i k * v2.entry k j =
        ∑ k in Finset.range d1.size,
          (if i = k then d1.data.getD i 0 * (if k = j then d2.data.getD k 0 else 0)
            else 0) := by
      apply Finset.sum_congr rfl
      intro k hk
      have hk1 : k < d1.size := Finset.mem_range.mp hk
      rw [hv1e i k hi1 hk1, hv2e k j (by rw [← hsize]; exact hk1) hj2]
      by_cases hik : i = k
      · simp [hik]
      · simp [hik]
    rw [hsum, Finset.sum_ite_eq, if_pos (Finset.mem_range.mpr hi1)]
    by_cases hij : i = j
    · subst hij
      rw [if_pos rfl, if_pos rfl, hpe i hi1]
    · rw [if_neg hij, if_neg hij, mul_zero]
  · obtain ⟨s, hs, hssz, hslen, hse⟩ := diag_add_spec d1 d2 h1 h2 hsize.symm
    obtain ⟨vs, hvs, hvss, hvsr, hvsc, hvse⟩ := dense_view_spec s hslen
    obtain ⟨q, hq, hqs, hqr, hqc, hqe⟩ :=
      dense_add_spec v1 v2 hv1s hv2s (by rw [hv1r, hv2r, hsize]) (by rw [hv1c, hv2c, hsize])
    refine ⟨s, vs, hs, hvs, ?_⟩
    rw [hq]
    congr 1
    apply dense_ext q vs hqs hvss (by rw [hqr, hv1r, hvsr, hssz])
      (by rw [hqc, hv1c, hvsc, hssz])
    intro i j hi hj
    have hi1 : i < d1.size := by rw [hqr, hv1r] at hi; exact hi
    have hj1 : j < d1.size := by rw [hqc, hv1c] at hj; exact hj
    rw [hqe i j (by rw [hv1r]; exact hi1) (by rw [hv1c]; exact hj1),
      hvse i j (by rw [hssz]; exact hi1) (by rw [hssz]; exact hj1),
      hv1e i j hi1 hj1, hv2e i j (by rw [← hsize]; exact hi1) (by rw [← hsize]; exact hj1)]
    by_cases hij : i = j
    · subst hij
      rw [if_pos rfl, if_pos rfl, if_pos rfl, hse i hi1]
    · rw [if_neg hij, if_neg hij, if_neg hij, add_zero]

/-- Instance of C19: the diagonals `[5, 7]` and `[2, 3]`. -/
theorem diagonal_refines_dense_witness :
    ∃ v1 v2, DiagonalMatrix.dense_view (⟨[5, 7], 2⟩ : DiagonalMatrix ℚ) = value v1 ∧
      DiagonalMatrix.dense_view (⟨[2, 3], 2⟩ : DiagonalMatrix ℚ) = value v2 ∧
      (∃ p vp, DiagonalMatrix.multiplyMatrix (⟨[5, 7], 2⟩ : DiagonalMatrix ℚ)
          (Matrix.diagonal ⟨[2, 3], 2⟩) = value p ∧
        p.dense_view = value vp ∧ v1.multiplyMatrix (Matrix.dense v2) = value vp) ∧
      (∃ s vs, DiagonalMatrix.add (⟨[5, 7], 2⟩ : DiagonalMatrix ℚ)
          (Matrix.diagonal ⟨[2, 3], 2⟩) = value s ∧
        s.dense_view = value vs ∧ v1.add (Matrix.dense v2) = value vs) :=
  diagonal_refines_dense ⟨[5, 7], 2⟩ ⟨[2, 3], 2⟩ rfl rfl rfl

/-- C20: for a dense matrix `m` of shape r x c, `m.transpose()` has shape c x r with entry
`(j, i)` equal to `m(i, j)` for all `i < r`, `j < c`, and transposing the result again
returns a matrix with the shape and entries of `m`, namely `m` itself. -/
theorem dense_transpose_correct (m : DenseMatrix α) (hm : m.shaped) :
    ∃ t, m.transpose = value t ∧ t.shaped ∧ t.rows = m.cols ∧ t.cols = m.rows ∧
      (∀ i j, i < m.rows → j < m.cols → t.entry j i = m.entry i j) ∧
      t.transpose = value m := by
  obtain ⟨t, ht, hts, htr, htc, hte⟩ := dense_transpose_spec m hm
  obtain ⟨u, hu, hus, hur, huc, hue⟩ := dense_transpose_spec t hts
  refine ⟨t, ht, hts, htr, htc, hte, ?_⟩
  rw [hu]
  congr 1
  apply dense_ext u m hus hm (by rw [hur, htc]) (by rw [huc, htr])
  intro i j hi hj
  have hi1 : i < m.rows := by rw [hur, htc] at hi; exact hi
  have hj1 : j < m.cols := by rw [huc, htr] at hj; exact hj
  rw [hue j i (by rw [htr]; exact hj1) (by rw [htc]; exact hi1), hte i j hi1 hj1]

/-- Instance of C20: a 2 x 3 matrix. -/
theorem dense_transpose_correct_witness :
    ∃ t, DenseMatrix.transpose (⟨[[1, 2, 3], [4, 5, 6]], 2, 3⟩ : DenseMatrix ℚ) = value t ∧
      t.shaped ∧ t.rows = 3 ∧ t.cols = 2 ∧
      (∀ i j, i < 2 → j < 3 →
        t.entry j i = (⟨[[1, 2, 3], [4, 5, 6]], 2, 3⟩ : DenseMatrix ℚ).entry i j) ∧
      t.transpose = value ⟨[[1, 2, 3], [4, 5, 6]], 2, 3⟩ :=
  dense_transpose_correct ⟨[[1, 2, 3], [4, 5, 6]], 2, 3⟩ (by simp [DenseMatrix.shaped])

end MatrixClaims

/-! ## The claim on the cluster records -/

section ClusterClaims

set_option linter.unusedSectionVars false

variable {α : Type} [LinearOrderedField α]

theorem export_main_prefix (fmt : α → List Char) :
    (Cluster.Export fmt (main_cluster : Cluster α)).take 10 =
      ['2', '\n', 'N', 'V', 'I', 'D', 'I', 'A', ' ', 'R'] := by
  have h2 : show_size_t 2 = ['2'] := by decide
  have hm : "NVIDIA RTX 3090".toList = ['N', 'V', 'I', 'D', 'I', 'A', ' ', 'R', 'T', 'X', ' ', '3', '0', '9', '0'] := by decide
  simp only [Cluster.Export, main_cluster, ClusterNode.Export, GpuSpec.Export, List.length_cons, List.length_nil, List.map_cons, List.flatten_cons, List.append_assoc, Nat.zero_add, Nat.reduceAdd, h2, hm, List.cons_append, List.nil_append, List.take_succ_cons, List.take_zero]

theorem node_import_failed (parse : List Char → Option (α × List Char)) (n : ClusterNode α)
    (s : IStream) (hs : s.fail = true) : n.Import parse s = (n, s) := by
  simp [ClusterNode.Import, GpuSpec.Import, CpuSpec.Import, RamSpec.Import, LanSpec.Import,
    read_string, read_int, read_double, hs]

theorem import_nodes_failed (parse : List Char → Option (α × List Char)) (int_junk : Int)
    (double_junk : α) (count : Nat) (s : IStream) (hs : s.fail = true)
    (nodes : List (ClusterNode α)) :
    import_nodes parse int_junk double_junk count s nodes =
      nodes ++ List.replicate count (fresh_node int_junk double_junk) := by
  induction count generalizing nodes with
  | zero => simp [import_nodes]
  | succ k ih =>
    simp only [import_nodes, node_import_failed parse _ s hs]
    rw [ih, List.append_assoc]
    rfl

theorem first_node_import (parse : List Char → Option (α × List Char)) (int_junk : Int)
    (double_junk : α) (t : List Char) :
    (fresh_node int_junk double_junk).Import parse
      { rest := '\n' :: 'N' :: 'V' :: 'I' :: 'D' :: 'I' :: 'A' :: ' ' :: 'R' :: t, fail := false } =
    ({ gpu := { model := "NVIDIA", cores := 0, memory := int_junk }
       cpu := { model := "", cores := int_junk, frequency := double_junk }
       ram := { capacity := int_junk, type := "" }
       lan := { bandwidth := double_junk, type := "" } },
     { rest := 'R' :: t, fail := true }) := by
  simp [ClusterNode.Import, GpuSpec.Import, CpuSpec.Import, RamSpec.Import, LanSpec.Import,
    read_string, read_int, read_double, skip_ws, is_space, take_word, take_sign, take_digits,
    fresh_node]

theorem count_read (t : List Char) (count_junk : Nat) :
    read_size_t { rest := '2' :: '\n' :: t, fail := false } count_junk =
      (2, { rest := '\n' :: t, fail := false }) := by
  simp [read_size_t, skip_ws, is_space, take_sign, take_digits, digits_value]

/-- C21 fails on the code: importing the text that `Cluster::Export` writes for the
cluster of `main` gives back two nodes, but `file >> model` stops at the first blank of
`NVIDIA RTX 3090`, so the first node has GPU model `NVIDIA`, the read of `cores` meets
`RTX`, sets the value 0 and the fail bit, and no later field of either node is read: the
strings stay empty and the numbers stay as the default-initialized node held them. -/
theorem cluster_round_trip_main (fmt : α → List Char)
    (parse : List Char → Option (α × List Char)) (count_junk : Nat) (int_junk : Int)
    (double_junk : α) (c0 : Cluster α) :
    Cluster.Import parse count_junk int_junk double_junk c0
        (some (Cluster.Export fmt main_cluster)) =
      { nodes :=
          [ { gpu := { model := "NVIDIA", cores := 0, memory := int_junk }
              cpu := { model := "", cores := int_junk, frequency := double_junk }
              ram := { capacity := int_junk, type := "" }
              lan := { bandwidth := double_junk, type := "" } },
            fresh_node int_junk double_junk ] } ∧
    (Cluster.Import parse count_junk int_junk double_junk c0
        (some (Cluster.Export fmt main_cluster))).nodes.length =
      (main_cluster : Cluster α).nodes.length ∧
    (Cluster.Import parse count_junk int_junk double_junk c0
        (some (Cluster.Export fmt main_cluster))).nodes.map (fun n => (n.gpu.model, n.gpu.cores)) =
      [("NVIDIA", 0), ("", int_junk)] ∧
    (main_cluster : Cluster α).nodes.map (fun n => (n.gpu.model, n.gpu.cores)) =
      [("NVIDIA RTX 3090", 10496), ("NVIDIA RTX 4060", 3072)] := by
  have htext : Cluster.Export fmt (main_cluster : Cluster α) =
      ['2', '\n', 'N', 'V', 'I', 'D', 'I', 'A', ' ', 'R'] ++
        (Cluster.Export fmt (main_cluster : Cluster α)).drop 10 := by
    rw [← export_main_prefix fmt, List.take_append_drop]
  have himport : Cluster.Import parse count_junk int_junk double_junk c0
        (some (Cluster.Export fmt main_cluster)) =
      { nodes :=
          [ { gpu := { model := "NVIDIA", cores := 0, memory := int_junk }
              cpu := { model := "", cores := int_junk, frequency := double_junk }
              ram := { capacity := int_junk, type := "" }
              lan := { bandwidth := double_junk, type := "" } },
            fresh_node int_junk double_junk ] } := by
    rw [htext]
    simp only [Cluster.Import, List.cons_append, List.nil_append, count_read, import_nodes,
      first_node_import]
    rw [node_import_failed parse _ _ rfl]
  rw [himport]
  exact ⟨rfl, rfl, rfl, rfl⟩

end ClusterClaims

end Laba3
